import Mathlib

/-!
# Combination ids, posting-list counts and the temporary-list flush of `PivotNeighbHorderHashPivInvIndex`

A shallow embedding of the inline members of
`similarity_search/include/method/pivot_neighb_horder_hashpiv_invindx.h`:

* `PostingListIndex` (two and three pivots), the ranking of an unordered pivot combination;
* `getPostQtys` and its three helpers, the number of posting lists;
* `flushTmpPost`, the append of one thread's temporary posting lists to the shared ones.

Conventions.

* `IdTypeUnsign` is a 32-bit unsigned integer and `size_t` a 64-bit one.  Values are natural
  numbers and every arithmetic operation of the source is followed by the reduction modulo
  `2 ^ 32` (`u32`) or `2 ^ 64` (`u64`) of the type it is carried out in.
* A failed `CHECK` (a fatal error of the library) is the result `none`, or `Outcome.checkFailed`
  for the flush.  An element access outside a vector, and an increment that leaves a signed
  integer type, is `Outcome.undefined`.
* The namespace `Exact` repeats `PostingListIndex` over unbounded integers, without the
  reductions: the ranking formula as it is meant.  `PostingListIndex2_eq_exact` and
  `PostingListIndex3_eq_exact` give the range of `num_pivot_` on which the two coincide.
* The function-local static `resUB` of `PostingListIndex` is a parameter of the bodies
  (`PostingListIndex2.body`, `PostingListIndex3.body`); `PostingListIndex2` and
  `PostingListIndex3` are the call that initialises it, from the `num_pivot_` of the index the
  call is made on.  `PostingListIndex2.call` and `PostingListIndex3.call` carry the static as
  state from one call to the next.
-/

namespace PivotNeighbHorderHashPivInvIndex

/-! ## Machine arithmetic -/

/-- Reduction to the range of `IdTypeUnsign` (`uint32_t`). -/
def u32 (x : Nat) : Nat := x % 2 ^ 32

/-- Reduction to the range of `size_t` (64 bits). -/
def u64 (x : Nat) : Nat := x % 2 ^ 64

/-- Subtraction `a - b` of two `IdTypeUnsign` values (wraps around below zero). -/
def sub32 (a b : Nat) : Nat := u32 (a + (2 ^ 32 - u32 b))

/-- Subtraction `a - b` of two `size_t` values (wraps around below zero). -/
def sub64 (a b : Nat) : Nat := u64 (a + (2 ^ 64 - u64 b))

/-! ## `PostingListIndex`, as compiled (`ADD_CHECKS` is defined) -/

/-- Initialiser of the bound `resUB` of the two-pivot overload:
`num_pivot_ * (num_pivot_ - 1) / 2` in `size_t`, stored in an `IdTypeUnsign`. -/
def resUB2 (num_pivot_ : Nat) : Nat :=
  u32 (u64 (num_pivot_ * sub64 num_pivot_ 1) / 2)

/-- Initialiser of the bound `resUB` of the three-pivot overload:
`num_pivot_ * (num_pivot_ - 1) * (num_pivot_ - 2) / 6` in `size_t`, stored in an
`IdTypeUnsign`. -/
def resUB3 (num_pivot_ : Nat) : Nat :=
  u32 (u64 (u64 (num_pivot_ * sub64 num_pivot_ 1) * sub64 num_pivot_ 2) / 6)

/-- Body of the two-pivot `PostingListIndex` after the swap, with the value `resUB` that the
function-local static holds: the two checks on the ids, the rank, the check on the rank. -/
def PostingListIndex2.body (num_pivot_ resUB pivotId1 pivotId2 : Nat) : Option Nat :=
  if pivotId1 = pivotId2 then none
  else if ¬ pivotId2 < num_pivot_ then none
  else
    let res := u32 (pivotId1 + u32 (pivotId2 * sub32 pivotId2 1) / 2)
    if ¬ res < resUB then none else some res

/-- Two-pivot `PostingListIndex(pivotId1, pivotId2)` on an index with `num_pivot_` pivots, the
static `resUB` being initialised from this `num_pivot_`. -/
def PostingListIndex2 (num_pivot_ pivotId1 pivotId2 : Nat) : Option Nat :=
  if pivotId1 > pivotId2 then
    PostingListIndex2.body num_pivot_ (resUB2 num_pivot_) pivotId2 pivotId1
  else
    PostingListIndex2.body num_pivot_ (resUB2 num_pivot_) pivotId1 pivotId2

/-- Result of `sort(pivots, pivots + 3)` on `{a, b, c}`: the three values in ascending order
(`sort3_sorted`, `sort3_perm`). -/
def sort3 (a b c : Nat) : Nat × Nat × Nat :=
  if a ≤ b then
    if b ≤ c then (a, b, c) else if a ≤ c then (a, c, b) else (c, a, b)
  else
    if a ≤ c then (b, a, c) else if b ≤ c then (b, c, a) else (c, b, a)

/-- Body of the three-pivot `PostingListIndex` after the sort, with the value `resUB` that the
function-local static holds. -/
def PostingListIndex3.body (num_pivot_ resUB pivotId1 pivotId2 pivotId3 : Nat) : Option Nat :=
  if ¬ (pivotId1 < pivotId2 ∧ pivotId2 < pivotId3 ∧ pivotId3 < num_pivot_) then none
  else
    let res := u32 (u32 (pivotId1 + u32 (pivotId2 * sub32 pivotId2 1) / 2)
                    + u32 (u32 (pivotId3 * sub32 pivotId3 1) * sub32 pivotId3 2) / 6)
    if ¬ res < resUB then none else some res

/-- Three-pivot `PostingListIndex(pivotId1, pivotId2, pivotId3)` on an index with `num_pivot_`
pivots, the static `resUB` being initialised from this `num_pivot_`. -/
def PostingListIndex3 (num_pivot_ pivotId1 pivotId2 pivotId3 : Nat) : Option Nat :=
  match sort3 pivotId1 pivotId2 pivotId3 with
  | (p1, p2, p3) => PostingListIndex3.body num_pivot_ (resUB3 num_pivot_) p1 p2 p3

/-! ## `PostingListIndex` over unbounded integers

The subtractions are those of `Nat`.  They stop at zero only where the integer product is zero
as well (`num_pivot_` below 2 or 3 in the bounds); behind the checks `pivotId2 >= 1` and
`pivotId3 >= 2`. -/

namespace Exact

/-- The bound `num_pivot_ * (num_pivot_ - 1) / 2` without reduction. -/
def resUB2 (num_pivot_ : Nat) : Nat := num_pivot_ * (num_pivot_ - 1) / 2

/-- The bound `num_pivot_ * (num_pivot_ - 1) * (num_pivot_ - 2) / 6` without reduction. -/
def resUB3 (num_pivot_ : Nat) : Nat := num_pivot_ * (num_pivot_ - 1) * (num_pivot_ - 2) / 6

/-- Body of the two-pivot `PostingListIndex` after the swap, in exact arithmetic. -/
def PostingListIndex2.body (num_pivot_ resUB pivotId1 pivotId2 : Nat) : Option Nat :=
  if pivotId1 = pivotId2 then none
  else if ¬ pivotId2 < num_pivot_ then none
  else
    let res := pivotId1 + pivotId2 * (pivotId2 - 1) / 2
    if ¬ res < resUB then none else some res

/-- Two-pivot `PostingListIndex` in exact arithmetic. -/
def PostingListIndex2 (num_pivot_ pivotId1 pivotId2 : Nat) : Option Nat :=
  if pivotId1 > pivotId2 then
    PostingListIndex2.body num_pivot_ (resUB2 num_pivot_) pivotId2 pivotId1
  else
    PostingListIndex2.body num_pivot_ (resUB2 num_pivot_) pivotId1 pivotId2

/-- Body of the three-pivot `PostingListIndex` after the sort, in exact arithmetic. -/
def PostingListIndex3.body (num_pivot_ resUB pivotId1 pivotId2 pivotId3 : Nat) : Option Nat :=
  if ¬ (pivotId1 < pivotId2 ∧ pivotId2 < pivotId3 ∧ pivotId3 < num_pivot_) then none
  else
    let res := pivotId1 + pivotId2 * (pivotId2 - 1) / 2
                 + pivotId3 * (pivotId3 - 1) * (pivotId3 - 2) / 6
    if ¬ res < resUB then none else some res

/-- Three-pivot `PostingListIndex` in exact arithmetic. -/
def PostingListIndex3 (num_pivot_ pivotId1 pivotId2 pivotId3 : Nat) : Option Nat :=
  match sort3 pivotId1 pivotId2 pivotId3 with
  | (p1, p2, p3) => PostingListIndex3.body num_pivot_ (resUB3 num_pivot_) p1 p2 p3

end Exact

/-! ## `PostingListIndex` with the function-local static `resUB` as state

`resUB` is declared `static` inside the member function.  There is one such variable per
overload for all the indexes of the program; it is initialised when control first passes its
declaration, from the `num_pivot_` of the index of that call, and never written again.  The
state is `none` before the initialisation and `some` of the stored bound after it. -/

/-- Body of one call of the two-pivot `PostingListIndex` after the swap, the static being
`resUB` before the call: the result of the call and the static after it.  A call stopped by a
check on the ids does not reach the declaration of the static. -/
def PostingListIndex2.callBody (resUB : Option Nat) (num_pivot_ pivotId1 pivotId2 : Nat) :
    Option Nat × Option Nat :=
  if pivotId1 = pivotId2 then (none, resUB)
  else if ¬ pivotId2 < num_pivot_ then (none, resUB)
  else
    let res := u32 (pivotId1 + u32 (pivotId2 * sub32 pivotId2 1) / 2)
    let resUB' := match resUB with
      | some ub => ub
      | none => resUB2 num_pivot_
    if ¬ res < resUB' then (none, some resUB') else (some res, some resUB')

/-- One call of the two-pivot `PostingListIndex` on an index with `num_pivot_` pivots, the
static being `resUB` before the call. -/
def PostingListIndex2.call (resUB : Option Nat) (num_pivot_ pivotId1 pivotId2 : Nat) :
    Option Nat × Option Nat :=
  if pivotId1 > pivotId2 then
    PostingListIndex2.callBody resUB num_pivot_ pivotId2 pivotId1
  else
    PostingListIndex2.callBody resUB num_pivot_ pivotId1 pivotId2

/-- The static of the two-pivot overload after a sequence of calls, each given as the
`num_pivot_` of the index it is made on and its two arguments, in a program that starts. -/
def PostingListIndex2.staticAfter (calls : List (Nat × Nat × Nat)) : Option Nat :=
  calls.foldl (fun resUB c => (PostingListIndex2.call resUB c.1 c.2.1 c.2.2).2) none

/-- Body of one call of the three-pivot `PostingListIndex` after the sort, the static being
`resUB` before the call: the result of the call and the static after it. -/
def PostingListIndex3.callBody (resUB : Option Nat)
    (num_pivot_ pivotId1 pivotId2 pivotId3 : Nat) : Option Nat × Option Nat :=
  if ¬ (pivotId1 < pivotId2 ∧ pivotId2 < pivotId3 ∧ pivotId3 < num_pivot_) then (none, resUB)
  else
    let res := u32 (u32 (pivotId1 + u32 (pivotId2 * sub32 pivotId2 1) / 2)
                    + u32 (u32 (pivotId3 * sub32 pivotId3 1) * sub32 pivotId3 2) / 6)
    let resUB' := match resUB with
      | some ub => ub
      | none => resUB3 num_pivot_
    if ¬ res < resUB' then (none, some resUB') else (some res, some resUB')

/-- One call of the three-pivot `PostingListIndex` on an index with `num_pivot_` pivots, the
static being `resUB` before the call. -/
def PostingListIndex3.call (resUB : Option Nat) (num_pivot_ pivotId1 pivotId2 pivotId3 : Nat) :
    Option Nat × Option Nat :=
  match sort3 pivotId1 pivotId2 pivotId3 with
  | (p1, p2, p3) => PostingListIndex3.callBody resUB num_pivot_ p1 p2 p3

/-- The static of the three-pivot overload after a sequence of calls, each given as the
`num_pivot_` of the index it is made on and its three arguments, in a program that starts. -/
def PostingListIndex3.staticAfter (calls : List (Nat × Nat × Nat × Nat)) : Option Nat :=
  calls.foldl (fun resUB c => (PostingListIndex3.call resUB c.1 c.2.1 c.2.2.1 c.2.2.2).2) none

/-! ## `getPostQtys` -/

/-- `getPostQtysOnePivot(skipVal)`: `(skipVal - 1 + size_t(num_pivot_)) / skipVal`. -/
def getPostQtysOnePivot (num_pivot_ skipVal : Nat) : Nat :=
  u64 (sub64 skipVal 1 + num_pivot_) / skipVal

/-- `getPostQtysTwoPivots(skipVal)`:
`(skipVal - 1 + size_t(num_pivot_) * (num_pivot_ - 1) / 2) / skipVal`. -/
def getPostQtysTwoPivots (num_pivot_ skipVal : Nat) : Nat :=
  u64 (sub64 skipVal 1 + u64 (num_pivot_ * sub64 num_pivot_ 1) / 2) / skipVal

/-- `getPostQtysThreePivots(skipVal)`: `CHECK(num_pivot_ >= 2)`, then
`(skipVal - 1 + size_t(num_pivot_) * size_t(num_pivot_ - 1) * size_t(num_pivot_ - 2) / 6) / skipVal`. -/
def getPostQtysThreePivots (num_pivot_ skipVal : Nat) : Option Nat :=
  if ¬ 2 ≤ num_pivot_ then none
  else
    some (u64 (sub64 skipVal 1
                + u64 (u64 (num_pivot_ * sub64 num_pivot_ 1) * sub64 num_pivot_ 2) / 6) / skipVal)

/-- `getPostQtys(pivotCombQty, skipVal)`: the arity is checked, then dispatched on. -/
def getPostQtys (num_pivot_ pivotCombQty skipVal : Nat) : Option Nat :=
  if ¬ (pivotCombQty ≠ 0 ∧ pivotCombQty ≤ 3) then none
  else if pivotCombQty = 1 then some (getPostQtysOnePivot num_pivot_ skipVal)
  else if pivotCombQty = 2 then some (getPostQtysTwoPivots num_pivot_ skipVal)
  else if ¬ pivotCombQty = 3 then none
  else getPostQtysThreePivots num_pivot_ skipVal

/-! ## `flushTmpPost` -/

/-- How a call of a member function ends: normally with a new state, with a failed `CHECK`
(a fatal error), or with an element access outside a vector (no defined behaviour).  The
members that a call has already written when it fails are not part of the result. -/
inductive Outcome (σ : Type) where
  | ok (s : σ)
  | checkFailed
  | undefined
  deriving DecidableEq, Repr

/-- The members of the index that `flushTmpPost` reads or writes.  `α` is the element type of
`PostingListHorderType`, declared in another header: the flush only copies elements.
`post_list_mutexes_` is kept as its size, all the flush asks of it before it locks a slot.
The owning pointers in `posting_lists_` and `tmp_posting_lists_` are taken to be non-null. -/
structure State (α : Type) where
  maxPostQty_ : Nat
  posting_lists_ : List (List α)
  post_list_mutexes_ : Nat
  tmp_posting_lists_ : List (List (List α))
  tmp_post_doc_qty_ : List Nat
  deriving DecidableEq, Repr

/-- The loop `for (IdType pivId = 0; pivId < maxPostQty_; ++pivId)` of `flushTmpPost`, started
at `pivId` with `todo` iterations left, on the shared lists and on `tmpAllPivList`.  One
iteration is: the check on the mutex of the slot; the element accesses `posting_lists_[pivId]`
and `tmpAllPivList[pivId]`; `permList.resize(oldSize + addSize)` and the bulk copy
`memcpy(&permList[oldSize], &tmpList[0], ...)`, whose two subscripts are inside the vectors
exactly when `addSize`, the size of `tmpList`, is not 0; `tmpList.clear()`; and `++pivId`, which
stays inside `IdType` (a signed 32-bit integer) exactly when `pivId + 1 < 2 ^ 31`. -/
def flushTmpPost.loop {α : Type} (post_list_mutexes_ : Nat) :
    Nat → Nat → List (List α) → List (List α) → Outcome (List (List α) × List (List α))
  | 0, _, posting_lists_, tmpAllPivList => Outcome.ok (posting_lists_, tmpAllPivList)
  | todo + 1, pivId, posting_lists_, tmpAllPivList =>
    if ¬ pivId < post_list_mutexes_ then Outcome.checkFailed
    else
      match posting_lists_[pivId]?, tmpAllPivList[pivId]? with
      | some permList, some tmpList =>
        if tmpList.length = 0 then Outcome.undefined
        else if ¬ pivId + 1 < 2 ^ 31 then Outcome.undefined
        else
          flushTmpPost.loop post_list_mutexes_ todo (pivId + 1)
            (posting_lists_.set pivId (permList ++ tmpList)) (tmpAllPivList.set pivId [])
      | _, _ => Outcome.undefined

/-- `flushTmpPost(threadId)` (the build without `SINGLE_MUTEX_FLUSH`): the check on `threadId`,
the reset of the thread's counter, then the loop over the slots. -/
def flushTmpPost {α : Type} (s : State α) (threadId : Nat) : Outcome (State α) :=
  if ¬ threadId ≤ s.tmp_posting_lists_.length then Outcome.checkFailed
  else if ¬ threadId < s.tmp_post_doc_qty_.length then Outcome.undefined
  else
    match s.tmp_posting_lists_[threadId]? with
    | none => Outcome.undefined
    | some tmpAllPivList =>
      match flushTmpPost.loop s.post_list_mutexes_ s.maxPostQty_ 0 s.posting_lists_
          tmpAllPivList with
      | Outcome.ok (posting_lists_, tmpAllPivList) =>
        Outcome.ok
          { s with
            posting_lists_ := posting_lists_
            tmp_posting_lists_ := s.tmp_posting_lists_.set threadId tmpAllPivList
            tmp_post_doc_qty_ := s.tmp_post_doc_qty_.set threadId 0 }
      | Outcome.checkFailed => Outcome.checkFailed
      | Outcome.undefined => Outcome.undefined

/-- Two flushes in a row, the second on the state the first one left. -/
def flushTmpPostTwice {α : Type} (s : State α) (t1 t2 : Nat) : Outcome (State α) :=
  match flushTmpPost s t1 with
  | Outcome.ok s1 => flushTmpPost s1 t2
  | Outcome.checkFailed => Outcome.checkFailed
  | Outcome.undefined => Outcome.undefined

/-- Closed form of what the loop of `flushTmpPost` leaves in the shared lists: the first
`k` slots with the temporary list of the slot appended.  A device of the proofs, related to
the loop by `flushTmpPost.loop_ok`. -/
def flushTmpPost.appended {α : Type} : Nat → List (List α) → List (List α) → List (List α)
  | k + 1, permList :: rest, tmpList :: tmpRest =>
    (permList ++ tmpList) :: flushTmpPost.appended k rest tmpRest
  | _, posting_lists_, _ => posting_lists_

/-- Closed form of what the loop of `flushTmpPost` leaves in the temporary lists of the
thread: the first `k` slots emptied. -/
def flushTmpPost.cleared {α : Type} : Nat → List (List α) → List (List α)
  | k + 1, _ :: tmpRest => [] :: flushTmpPost.cleared k tmpRest
  | _, tmpAllPivList => tmpAllPivList

/-- A state with two slots and two threads, on which the theorems on `flushTmpPost` are
instantiated: shared lists `[1]` and `[2]`, thread 0 holding `[3]` and `[4, 5]`, thread 1
holding `[6]` and nothing. -/
def sampleState : State Nat :=
  { maxPostQty_ := 2
    posting_lists_ := [[1], [2]]
    post_list_mutexes_ := 2
    tmp_posting_lists_ := [[[3], [4, 5]], [[6], []]]
    tmp_post_doc_qty_ := [3, 1] }

/-- A state with one slot and one thread whose vector of mutexes is empty. -/
def noMutexState : State Nat :=
  { maxPostQty_ := 1
    posting_lists_ := [[1]]
    post_list_mutexes_ := 0
    tmp_posting_lists_ := [[[3]]]
    tmp_post_doc_qty_ := [1] }

/-! ## Binomial coefficients behind the ranking formula -/

theorem tri_eq_choose (k : Nat) : k * (k - 1) / 2 = k.choose 2 :=
  (Nat.choose_two_right k).symm

theorem tet_eq_choose (k : Nat) : k * (k - 1) * (k - 2) / 6 = k.choose 3 := by
  have h := Nat.descFactorial_eq_factorial_mul_choose k 3
  have h2 : k.descFactorial 3 = k * (k - 1) * (k - 2) := by
    simp [Nat.descFactorial_succ, Nat.descFactorial_zero]
    ring
  rw [h2] at h
  rw [h]
  simp [Nat.factorial]

theorem choose_two_succ (k : Nat) : (k + 1).choose 2 = k.choose 2 + k := by
  have h : (k + 1).choose 2 = k.choose 1 + k.choose 2 := Nat.choose_succ_succ k 1
  rw [Nat.choose_one_right] at h
  omega

theorem choose_three_succ (k : Nat) : (k + 1).choose 3 = k.choose 3 + k.choose 2 := by
  have h : (k + 1).choose 3 = k.choose 2 + k.choose 3 := Nat.choose_succ_succ k 2
  omega

theorem choose_two_step {a b : Nat} (h : a < b) : a.choose 2 + a ≤ b.choose 2 := by
  rw [← choose_two_succ]
  exact Nat.choose_le_choose 2 h

theorem choose_three_step {a b : Nat} (h : a < b) : a.choose 3 + a.choose 2 ≤ b.choose 3 := by
  rw [← choose_three_succ]
  exact Nat.choose_le_choose 3 h

/-- The rank of a pair is below the number of pairs. -/
theorem rank2_lt {n a b : Nat} (hab : a < b) (hb : b < n) : a + b.choose 2 < n.choose 2 := by
  have := choose_two_step hb
  omega

/-- The rank of a triple is below the number of triples. -/
theorem rank3_lt {n a b c : Nat} (hab : a < b) (hbc : b < c) (hc : c < n) :
    a + b.choose 2 + c.choose 3 < n.choose 3 := by
  have h1 := rank2_lt hab hbc
  have h2 := choose_three_step hc
  omega

/-- The rank of a sorted pair determines the pair. -/
theorem rank2_inj {a b c d : Nat} (hab : a < b) (hcd : c < d)
    (h : a + b.choose 2 = c + d.choose 2) : a = c ∧ b = d := by
  have hbd : b = d := by
    rcases Nat.lt_trichotomy b d with hlt | heq | hgt
    · have := choose_two_step hlt
      omega
    · exact heq
    · have := choose_two_step hgt
      omega
  subst hbd
  exact ⟨by omega, rfl⟩

/-- The rank of a sorted triple determines the triple. -/
theorem rank3_inj {a b c d e f : Nat} (hab : a < b) (hbc : b < c) (hde : d < e) (hef : e < f)
    (h : a + b.choose 2 + c.choose 3 = d + e.choose 2 + f.choose 3) :
    a = d ∧ b = e ∧ c = f := by
  have h1 := rank2_lt hab hbc
  have h2 := rank2_lt hde hef
  have hcf : c = f := by
    rcases Nat.lt_trichotomy c f with hlt | heq | hgt
    · have := choose_three_step hlt
      omega
    · exact heq
    · have := choose_three_step hgt
      omega
  subst hcf
  have h3 := rank2_inj hab hde (by omega)
  exact ⟨h3.1, h3.2, rfl⟩

/-! ## The sort of three ids -/

/-- What `sort3` returns is one of the six arrangements of its arguments, in ascending order. -/
theorem sort3_cases (a b c : Nat) :
    ∃ p1 p2 p3, sort3 a b c = (p1, p2, p3) ∧ p1 ≤ p2 ∧ p2 ≤ p3 ∧
      ((p1 = a ∧ p2 = b ∧ p3 = c) ∨ (p1 = a ∧ p2 = c ∧ p3 = b) ∨ (p1 = b ∧ p2 = a ∧ p3 = c) ∨
       (p1 = b ∧ p2 = c ∧ p3 = a) ∨ (p1 = c ∧ p2 = a ∧ p3 = b) ∨ (p1 = c ∧ p2 = b ∧ p3 = a)) := by
  unfold sort3
  split_ifs <;> refine ⟨_, _, _, rfl, ?_⟩ <;> omega

/-- The result of `sort3` is in ascending order. -/
theorem sort3_sorted (a b c : Nat) :
    (sort3 a b c).1 ≤ (sort3 a b c).2.1 ∧ (sort3 a b c).2.1 ≤ (sort3 a b c).2.2 := by
  obtain ⟨p1, p2, p3, h, h12, h23, -⟩ := sort3_cases a b c
  rw [h]
  exact ⟨h12, h23⟩

/-- The result of `sort3` is a rearrangement of its arguments. -/
theorem sort3_perm (a b c : Nat) :
    [(sort3 a b c).1, (sort3 a b c).2.1, (sort3 a b c).2.2].Perm [a, b, c] := by
  unfold sort3
  split_ifs <;> rw [List.perm_iff_count] <;> intro x <;>
    simp only [List.count_cons, List.count_nil] <;> omega

/-- Every rank below the number of pairs is the rank of a sorted pair. -/
theorem rank2_surj (n r : Nat) (h : r < n.choose 2) :
    ∃ a b, a < b ∧ b < n ∧ a + b.choose 2 = r := by
  induction n with
  | zero => simp at h
  | succ n ih =>
    rw [choose_two_succ] at h
    by_cases hr : r < n.choose 2
    · obtain ⟨a, b, hab, hb, hrk⟩ := ih hr
      exact ⟨a, b, hab, by omega, hrk⟩
    · exact ⟨r - n.choose 2, n, by omega, by omega, by omega⟩

/-- Every rank below the number of triples is the rank of a sorted triple. -/
theorem rank3_surj (n r : Nat) (h : r < n.choose 3) :
    ∃ a b c, a < b ∧ b < c ∧ c < n ∧ a + b.choose 2 + c.choose 3 = r := by
  induction n with
  | zero => simp at h
  | succ n ih =>
    rw [choose_three_succ] at h
    by_cases hr : r < n.choose 3
    · obtain ⟨a, b, c, hab, hbc, hc, hrk⟩ := ih hr
      exact ⟨a, b, c, hab, hbc, by omega, hrk⟩
    · obtain ⟨a, b, hab, hb, hrk⟩ := rank2_surj n (r - n.choose 3) (by omega)
      exact ⟨a, b, n, hab, hb, by omega, by omega⟩

/-! ## `PostingListIndex` in exact arithmetic: the value on valid ids -/

theorem Exact.body2_eq {n a b : Nat} (hab : a < b) (hb : b < n) :
    Exact.PostingListIndex2.body n (Exact.resUB2 n) a b = some (a + b.choose 2) := by
  have h := rank2_lt hab hb
  unfold Exact.PostingListIndex2.body Exact.resUB2
  rw [tri_eq_choose, tri_eq_choose]
  simp [h, hab.ne, hb]

theorem Exact.body3_eq {n a b c : Nat} (hab : a < b) (hbc : b < c) (hc : c < n) :
    Exact.PostingListIndex3.body n (Exact.resUB3 n) a b c
      = some (a + b.choose 2 + c.choose 3) := by
  have h := rank3_lt hab hbc hc
  unfold Exact.PostingListIndex3.body Exact.resUB3
  rw [tri_eq_choose, tet_eq_choose, tet_eq_choose]
  simp [h, hab, hbc, hc]

/-- On two distinct ids below `num_pivot_` the exact two-pivot `PostingListIndex` returns the
smaller id plus the number of pairs below the larger one. -/
theorem Exact.PostingListIndex2_eq {n a b : Nat} (hab : a ≠ b) (ha : a < n) (hb : b < n) :
    Exact.PostingListIndex2 n a b = some (min a b + (max a b).choose 2) := by
  unfold Exact.PostingListIndex2
  split_ifs with h
  · rw [Exact.body2_eq h ha, Nat.min_eq_right (by omega), Nat.max_eq_left (by omega)]
  · rw [Exact.body2_eq (by omega) hb, Nat.min_eq_left (by omega), Nat.max_eq_right (by omega)]

/-- On three pairwise distinct ids below `num_pivot_` the exact three-pivot `PostingListIndex`
returns the rank of the sorted triple. -/
theorem Exact.PostingListIndex3_eq {n a b c : Nat} (hab : a ≠ b) (hac : a ≠ c) (hbc : b ≠ c)
    (ha : a < n) (hb : b < n) (hc : c < n) :
    ∃ p1 p2 p3, sort3 a b c = (p1, p2, p3) ∧ p1 < p2 ∧ p2 < p3 ∧ p3 < n ∧
      Exact.PostingListIndex3 n a b c = some (p1 + p2.choose 2 + p3.choose 3) := by
  obtain ⟨p1, p2, p3, hs, h12, h23, hcases⟩ := sort3_cases a b c
  have h12' : p1 < p2 := by omega
  have h23' : p2 < p3 := by omega
  have h3 : p3 < n := by omega
  refine ⟨p1, p2, p3, hs, h12', h23', h3, ?_⟩
  unfold Exact.PostingListIndex3
  rw [hs]
  exact Exact.body3_eq h12' h23' h3

/-- The members of a triple are the members of its sort. -/
theorem sort3_finset {a b c p1 p2 p3 : Nat} (h : sort3 a b c = (p1, p2, p3)) :
    ({a, b, c} : Finset Nat) = {p1, p2, p3} := by
  obtain ⟨q1, q2, q3, hs, -, -, hcases⟩ := sort3_cases a b c
  rw [h] at hs
  simp only [Prod.mk.injEq] at hs
  obtain ⟨rfl, rfl, rfl⟩ := hs
  ext x
  simp only [Finset.mem_insert, Finset.mem_singleton]
  omega

/-! ## The combination id in exact arithmetic: a bijection onto `[0, C(num_pivot_, k))` -/

/-- C1: in exact integer arithmetic the two-pivot `PostingListIndex` is injective on unordered
pairs: two pairs of distinct pivot ids below `num_pivot_` with the same result are the same
set. -/
theorem PostingListIndex2_injective (num_pivot_ a b c d : Nat)
    (hab : a ≠ b) (hcd : c ≠ d)
    (ha : a < num_pivot_) (hb : b < num_pivot_) (hc : c < num_pivot_) (hd : d < num_pivot_)
    (h : Exact.PostingListIndex2 num_pivot_ a b = Exact.PostingListIndex2 num_pivot_ c d) :
    ({a, b} : Finset Nat) = {c, d} := by
  rw [Exact.PostingListIndex2_eq hab ha hb, Exact.PostingListIndex2_eq hcd hc hd] at h
  have h2 := rank2_inj (a := min a b) (b := max a b) (c := min c d) (d := max c d)
    (by omega) (by omega) (Option.some.inj h)
  ext x
  simp only [Finset.mem_insert, Finset.mem_singleton]
  omega

/-- C1, at the pairs (3, 5) and (5, 3) of an index with 16 pivots. -/
theorem PostingListIndex2_injective_witness :
    Exact.PostingListIndex2 16 3 5 = Exact.PostingListIndex2 16 5 3 ∧
      ({3, 5} : Finset Nat) = {5, 3} :=
  ⟨by decide,
   PostingListIndex2_injective 16 3 5 5 3 (by decide) (by decide) (by decide) (by decide)
     (by decide) (by decide) (by decide)⟩

/-- C2: in exact integer arithmetic the three-pivot `PostingListIndex` is injective on
unordered triples: two triples of pairwise distinct pivot ids below `num_pivot_` with the same
result are the same set. -/
theorem PostingListIndex3_injective (num_pivot_ a b c d e f : Nat)
    (hab : a ≠ b) (hac : a ≠ c) (hbc : b ≠ c) (hde : d ≠ e) (hdf : d ≠ f) (hef : e ≠ f)
    (ha : a < num_pivot_) (hb : b < num_pivot_) (hc : c < num_pivot_)
    (hd : d < num_pivot_) (he : e < num_pivot_) (hf : f < num_pivot_)
    (h : Exact.PostingListIndex3 num_pivot_ a b c = Exact.PostingListIndex3 num_pivot_ d e f) :
    ({a, b, c} : Finset Nat) = {d, e, f} := by
  obtain ⟨p1, p2, p3, hp, hp12, hp23, -, hpv⟩ := Exact.PostingListIndex3_eq hab hac hbc ha hb hc
  obtain ⟨q1, q2, q3, hq, hq12, hq23, -, hqv⟩ := Exact.PostingListIndex3_eq hde hdf hef hd he hf
  rw [hpv, hqv] at h
  obtain ⟨rfl, rfl, rfl⟩ := rank3_inj hp12 hp23 hq12 hq23 (Option.some.inj h)
  rw [sort3_finset hp, sort3_finset hq]

/-- C2, at the triples (7, 3, 5) and (5, 7, 3) of an index with 16 pivots. -/
theorem PostingListIndex3_injective_witness :
    Exact.PostingListIndex3 16 7 3 5 = Exact.PostingListIndex3 16 5 7 3 ∧
      ({7, 3, 5} : Finset Nat) = {5, 7, 3} :=
  ⟨by decide,
   PostingListIndex3_injective 16 7 3 5 5 7 3 (by decide) (by decide) (by decide) (by decide)
     (by decide) (by decide) (by decide) (by decide) (by decide) (by decide) (by decide)
     (by decide) (by decide)⟩

/-- In exact integer arithmetic the image of the two-pivot `PostingListIndex` is exactly
`[0, C(num_pivot_, 2))`: every pair of distinct pivot ids below `num_pivot_` yields a result
below `num_pivot_ * (num_pivot_ - 1) / 2`, and every number below that bound is the result of
such a pair. -/
theorem PostingListIndex2_image_exact (num_pivot_ : Nat) :
    (∀ a b, a ≠ b → a < num_pivot_ → b < num_pivot_ →
      ∃ r, Exact.PostingListIndex2 num_pivot_ a b = some r ∧
        r < num_pivot_ * (num_pivot_ - 1) / 2) ∧
    (∀ r, r < num_pivot_ * (num_pivot_ - 1) / 2 →
      ∃ a b, a ≠ b ∧ a < num_pivot_ ∧ b < num_pivot_ ∧
        Exact.PostingListIndex2 num_pivot_ a b = some r) := by
  rw [tri_eq_choose]
  constructor
  · intro a b hab ha hb
    refine ⟨_, Exact.PostingListIndex2_eq hab ha hb, ?_⟩
    exact rank2_lt (a := min a b) (b := max a b) (by omega) (by omega)
  · intro r hr
    obtain ⟨a, b, hab, hb, hrk⟩ := rank2_surj num_pivot_ r hr
    refine ⟨a, b, by omega, by omega, hb, ?_⟩
    rw [Exact.PostingListIndex2_eq (by omega) (by omega) hb,
      Nat.min_eq_left (by omega), Nat.max_eq_right (by omega), hrk]

/-- In exact integer arithmetic the image of the three-pivot `PostingListIndex` is exactly
`[0, C(num_pivot_, 3))`: every triple of pairwise distinct pivot ids below `num_pivot_` yields
a result below `num_pivot_ * (num_pivot_ - 1) * (num_pivot_ - 2) / 6`, and every number below
that bound is the result of such a triple. -/
theorem PostingListIndex3_image_exact (num_pivot_ : Nat) :
    (∀ a b c, a ≠ b → a ≠ c → b ≠ c → a < num_pivot_ → b < num_pivot_ → c < num_pivot_ →
      ∃ r, Exact.PostingListIndex3 num_pivot_ a b c = some r ∧
        r < num_pivot_ * (num_pivot_ - 1) * (num_pivot_ - 2) / 6) ∧
    (∀ r, r < num_pivot_ * (num_pivot_ - 1) * (num_pivot_ - 2) / 6 →
      ∃ a b c, a ≠ b ∧ a ≠ c ∧ b ≠ c ∧ a < num_pivot_ ∧ b < num_pivot_ ∧ c < num_pivot_ ∧
        Exact.PostingListIndex3 num_pivot_ a b c = some r) := by
  rw [tet_eq_choose]
  constructor
  · intro a b c hab hac hbc ha hb hc
    obtain ⟨p1, p2, p3, -, h12, h23, h3, hv⟩ := Exact.PostingListIndex3_eq hab hac hbc ha hb hc
    exact ⟨_, hv, rank3_lt h12 h23 h3⟩
  · intro r hr
    obtain ⟨a, b, c, hab, hbc, hc, hrk⟩ := rank3_surj num_pivot_ r hr
    refine ⟨a, b, c, by omega, by omega, by omega, by omega, by omega, hc, ?_⟩
    obtain ⟨p1, p2, p3, hs, -, -, -, hv⟩ :=
      Exact.PostingListIndex3_eq (n := num_pivot_) (a := a) (b := b) (c := c)
        (by omega) (by omega) (by omega) (by omega) (by omega) hc
    have hs2 : sort3 a b c = (a, b, c) := by
      unfold sort3
      rw [if_pos (by omega), if_pos (by omega)]
    rw [hs2] at hs
    simp only [Prod.mk.injEq] at hs
    obtain ⟨rfl, rfl, rfl⟩ := hs
    rw [hv, hrk]

/-! ## Machine arithmetic without overflow -/

theorem u32_of_lt {x : Nat} (h : x < 2 ^ 32) : u32 x = x := Nat.mod_eq_of_lt h

theorem u64_of_lt {x : Nat} (h : x < 2 ^ 64) : u64 x = x := Nat.mod_eq_of_lt h

theorem u32_le (x : Nat) : u32 x ≤ x := Nat.mod_le x _

theorem sub32_eq {a b : Nat} (hba : b ≤ a) (ha : a < 2 ^ 32) : sub32 a b = a - b := by
  unfold sub32 u32
  omega

theorem sub64_eq {a b : Nat} (hba : b ≤ a) (ha : a < 2 ^ 64) : sub64 a b = a - b := by
  unfold sub64 u64
  omega

/-- A bound on the falling product of three factors bounds the shorter products. -/
theorem falling_bounds {n B : Nat} (h : n * (n - 1) * (n - 2) < B) (hB : 2 < B) :
    n * (n - 1) < B ∧ n < B := by
  rcases Nat.lt_or_ge n 3 with h3 | h3
  · interval_cases n <;> omega
  · have h1 : n * (n - 1) * 1 ≤ n * (n - 1) * (n - 2) := Nat.mul_le_mul_left _ (by omega)
    have h2 : n * 1 ≤ n * (n - 1) := Nat.mul_le_mul_left _ (by omega)
    omega

/-- A bound on the falling product of two factors bounds the first factor. -/
theorem falling_bounds_two {n B : Nat} (h : n * (n - 1) < B) (hB : 1 < B) : n < B := by
  rcases Nat.lt_or_ge n 2 with h2 | h2
  · omega
  · have h1 : n * 1 ≤ n * (n - 1) := Nat.mul_le_mul_left _ (by omega)
    omega

/-- The product `num_pivot_ * (num_pivot_ - 1)` formed in `size_t`, when it fits. -/
theorem mul_sub64_eq {n : Nat} (h : n * (n - 1) < 2 ^ 64) :
    u64 (n * sub64 n 1) = n * (n - 1) := by
  rcases Nat.eq_zero_or_pos n with rfl | hn
  · simp [u64]
  · rw [sub64_eq hn (falling_bounds_two h (by norm_num)), u64_of_lt h]

/-- The product `num_pivot_ * (num_pivot_ - 1) * (num_pivot_ - 2)` formed in `size_t`, when
it fits. -/
theorem mul_mul_sub64_eq {n : Nat} (h : n * (n - 1) * (n - 2) < 2 ^ 64) :
    u64 (u64 (n * sub64 n 1) * sub64 n 2) = n * (n - 1) * (n - 2) := by
  obtain ⟨h2, h1⟩ := falling_bounds h (by norm_num)
  rw [mul_sub64_eq h2]
  rcases Nat.lt_or_ge n 2 with hn | hn
  · interval_cases n <;> simp [u64]
  · rw [sub64_eq hn h1, u64_of_lt h]

theorem sub64_self_one : sub64 1 1 = 0 := by decide

theorem resUB2_eq {n : Nat} (h : n.choose 2 < 2 ^ 32) : resUB2 n = n.choose 2 := by
  rw [← tri_eq_choose] at h
  unfold resUB2
  rw [mul_sub64_eq (by omega), u32_of_lt h, tri_eq_choose]

theorem resUB3_eq {n : Nat} (h : n.choose 3 < 2 ^ 32) : resUB3 n = n.choose 3 := by
  rw [← tet_eq_choose] at h
  unfold resUB3
  rw [mul_mul_sub64_eq (by omega), u32_of_lt h, tet_eq_choose]

/-- A pivot count whose pairs fit 32 bits fits 32 bits. -/
theorem lt_of_choose_two_lt {n : Nat} (h : n.choose 2 < 2 ^ 32) : n < 2 ^ 32 := by
  rw [← tri_eq_choose] at h
  rcases Nat.lt_or_ge n 3 with h3 | h3
  · omega
  · have h1 : n * 2 ≤ n * (n - 1) := Nat.mul_le_mul_left _ (by omega)
    omega

/-- A pivot count whose triples fit 32 bits fits 32 bits. -/
theorem lt_of_choose_three_lt {n : Nat} (h : n.choose 3 < 2 ^ 32) : n < 2 ^ 32 := by
  rw [← tet_eq_choose] at h
  rcases Nat.lt_or_ge n 4 with h4 | h4
  · omega
  · have h1 : n * 3 ≤ n * (n - 1) := Nat.mul_le_mul_left _ (by omega)
    have h2 : n * (n - 1) * 2 ≤ n * (n - 1) * (n - 2) := Nat.mul_le_mul_left _ (by omega)
    omega

/-- The two-pivot rank formed in `IdTypeUnsign` never exceeds the exact rank. -/
theorem machine_rank2_le {p1 p2 : Nat} (h1 : 1 ≤ p2) (h2 : p2 < 2 ^ 32) :
    u32 (p1 + u32 (p2 * sub32 p2 1) / 2) ≤ p1 + p2.choose 2 := by
  rw [sub32_eq h1 h2, ← tri_eq_choose]
  have ha := u32_le (p1 + u32 (p2 * (p2 - 1)) / 2)
  have hb := Nat.div_le_div_right (c := 2) (u32_le (p2 * (p2 - 1)))
  omega

/-- The three-pivot rank formed in `IdTypeUnsign` never exceeds the exact rank. -/
theorem machine_rank3_le {p1 p2 p3 : Nat} (h1 : 1 ≤ p2) (h2 : p2 < 2 ^ 32)
    (h3 : 2 ≤ p3) (h4 : p3 < 2 ^ 32) :
    u32 (u32 (p1 + u32 (p2 * sub32 p2 1) / 2)
          + u32 (u32 (p3 * sub32 p3 1) * sub32 p3 2) / 6)
      ≤ p1 + p2.choose 2 + p3.choose 3 := by
  have ha := @machine_rank2_le p1 p2 h1 h2
  rw [sub32_eq (by omega) h4, sub32_eq h3 h4, ← tet_eq_choose]
  have hb := u32_le (u32 (p1 + u32 (p2 * sub32 p2 1) / 2)
          + u32 (u32 (p3 * (p3 - 1)) * (p3 - 2)) / 6)
  have hc : u32 (u32 (p3 * (p3 - 1)) * (p3 - 2)) ≤ p3 * (p3 - 1) * (p3 - 2) :=
    (u32_le _).trans (Nat.mul_le_mul_right _ (u32_le _))
  have hd := Nat.div_le_div_right (c := 6) hc
  omega

/-! ## `PostingListIndex` as compiled agrees with the exact formula on small indexes -/

/-- Up to 65537 pivots no operation of the two-pivot `PostingListIndex` wraps around: the
compiled function is the exact one. -/
theorem PostingListIndex2_eq_exact {n : Nat} (hn : n ≤ 65537) (a b : Nat) :
    PostingListIndex2 n a b = Exact.PostingListIndex2 n a b := by
  have hbody : ∀ p1 p2, p1 ≤ p2 →
      PostingListIndex2.body n (resUB2 n) p1 p2
        = Exact.PostingListIndex2.body n (Exact.resUB2 n) p1 p2 := by
    intro p1 p2 h12
    unfold PostingListIndex2.body Exact.PostingListIndex2.body
    by_cases he : p1 = p2
    · rw [if_pos he, if_pos he]
    · rw [if_neg he, if_neg he]
      by_cases h2 : p2 < n
      · rw [if_neg (not_not.2 h2), if_neg (not_not.2 h2)]
        have hnn : n * (n - 1) ≤ 65537 * 65536 := Nat.mul_le_mul hn (by omega)
        have hpp : p2 * (p2 - 1) ≤ 65536 * 65535 := Nat.mul_le_mul (by omega) (by omega)
        have hub : resUB2 n = Exact.resUB2 n := by
          rw [resUB2_eq (by rw [← tri_eq_choose]; omega), Exact.resUB2, tri_eq_choose]
        have hmul : u32 (p2 * sub32 p2 1) = p2 * (p2 - 1) := by
          rw [sub32_eq (by omega) (by omega), u32_of_lt (by omega)]
        have hres : u32 (p1 + u32 (p2 * sub32 p2 1) / 2) = p1 + p2 * (p2 - 1) / 2 := by
          rw [hmul, u32_of_lt (by omega)]
        simp only [hres, hub]
      · rw [if_pos h2, if_pos h2]
  unfold PostingListIndex2 Exact.PostingListIndex2
  split_ifs with h
  · exact hbody b a (by omega)
  · exact hbody a b (by omega)

/-- Up to 1627 pivots no operation of the three-pivot `PostingListIndex` wraps around: the
compiled function is the exact one. -/
theorem PostingListIndex3_eq_exact {n : Nat} (hn : n ≤ 1627) (a b c : Nat) :
    PostingListIndex3 n a b c = Exact.PostingListIndex3 n a b c := by
  obtain ⟨p1, p2, p3, hs, -, -, -⟩ := sort3_cases a b c
  unfold PostingListIndex3 Exact.PostingListIndex3
  rw [hs]
  show PostingListIndex3.body n (resUB3 n) p1 p2 p3
    = Exact.PostingListIndex3.body n (Exact.resUB3 n) p1 p2 p3
  unfold PostingListIndex3.body Exact.PostingListIndex3.body
  by_cases hv : p1 < p2 ∧ p2 < p3 ∧ p3 < n
  · rw [if_neg (not_not.2 hv), if_neg (not_not.2 hv)]
    obtain ⟨h12, h23, h3⟩ := hv
    have hnn : n * (n - 1) ≤ 1627 * 1626 := Nat.mul_le_mul hn (by omega)
    have hnnn : n * (n - 1) * (n - 2) ≤ 1627 * 1626 * 1625 := Nat.mul_le_mul hnn (by omega)
    have hpp : p2 * (p2 - 1) ≤ 1626 * 1625 := Nat.mul_le_mul (by omega) (by omega)
    have hqq : p3 * (p3 - 1) ≤ 1626 * 1625 := Nat.mul_le_mul (by omega) (by omega)
    have hqqq : p3 * (p3 - 1) * (p3 - 2) ≤ 1626 * 1625 * 1624 := Nat.mul_le_mul hqq (by omega)
    have hub : resUB3 n = Exact.resUB3 n := by
      rw [resUB3_eq (by rw [← tet_eq_choose]; omega), Exact.resUB3, tet_eq_choose]
    have hmul2 : u32 (p2 * sub32 p2 1) = p2 * (p2 - 1) := by
      rw [sub32_eq (by omega) (by omega), u32_of_lt (by omega)]
    have hmul3 : u32 (u32 (p3 * sub32 p3 1) * sub32 p3 2) = p3 * (p3 - 1) * (p3 - 2) := by
      rw [sub32_eq (by omega) (by omega), sub32_eq (by omega) (by omega),
        u32_of_lt (show p3 * (p3 - 1) < 2 ^ 32 by omega),
        u32_of_lt (show p3 * (p3 - 1) * (p3 - 2) < 2 ^ 32 by omega)]
    have hres : u32 (u32 (p1 + u32 (p2 * sub32 p2 1) / 2)
          + u32 (u32 (p3 * sub32 p3 1) * sub32 p3 2) / 6)
        = p1 + p2 * (p2 - 1) / 2 + p3 * (p3 - 1) * (p3 - 2) / 6 := by
      rw [hmul2, hmul3, u32_of_lt (show p1 + p2 * (p2 - 1) / 2 < 2 ^ 32 by omega),
        u32_of_lt (by omega)]
    simp only [hres, hub]
  · rw [if_pos hv, if_pos hv]

/-! ## `PostingListIndex` as compiled: when it fails -/

theorem body2_isSome {n p1 p2 : Nat} (hn : n.choose 2 < 2 ^ 32) (h12 : p1 < p2) (h2 : p2 < n) :
    PostingListIndex2.body n (resUB2 n) p1 p2 ≠ none := by
  have hlt := rank2_lt h12 h2
  have hle := @machine_rank2_le p1 p2 (by omega)
    (by have := lt_of_choose_two_lt hn; omega)
  unfold PostingListIndex2.body
  rw [resUB2_eq hn, if_neg (by omega), if_neg (by omega)]
  simp only []
  rw [if_neg (by omega)]
  simp

theorem body3_isSome {n p1 p2 p3 : Nat} (hn : n.choose 3 < 2 ^ 32) (h12 : p1 < p2)
    (h23 : p2 < p3) (h3 : p3 < n) :
    PostingListIndex3.body n (resUB3 n) p1 p2 p3 ≠ none := by
  have hlt := rank3_lt h12 h23 h3
  have hn' := lt_of_choose_three_lt hn
  have hle := @machine_rank3_le p1 p2 p3 (by omega) (by omega)
    (by omega) (by omega)
  unfold PostingListIndex3.body
  rw [resUB3_eq hn, if_neg (by simp; omega)]
  simp only []
  rw [if_neg (by omega)]
  simp

/-! ## The number of posting lists -/

/-- C5 as stated fails: with one pivot and combinations of three, `getPostQtys(3, 1)` stops
at `CHECK(num_pivot_ >= 2)` instead of returning `C(1, 3) = 0`; and with `2 ^ 32 + 1` pivots
and pairs the product `num_pivot_ * (num_pivot_ - 1)` leaves `size_t`, so that the value
returned is `2 ^ 31`, not `C(2 ^ 32 + 1, 2)`. -/
theorem getPostQtys_ne_choose :
    getPostQtys 1 3 1 = none ∧ Nat.choose 1 3 = 0 ∧
    getPostQtys (2 ^ 32 + 1) 2 1 = some (2 ^ 31) ∧ Nat.choose (2 ^ 32 + 1) 2 ≠ 2 ^ 31 := by
  refine ⟨by decide, by decide, by decide, ?_⟩
  rw [← tri_eq_choose]
  decide

/-- C5, amended: for `pivotCombQty` in {1, 2, 3}, when the falling product
`num_pivot_ * (num_pivot_ - 1) * ...` of `pivotCombQty` factors that the code forms in
`size_t` is below `2 ^ 64`, and `num_pivot_ >= 2` in the case `pivotCombQty = 3`,
`getPostQtys(pivotCombQty, 1)` returns the binomial coefficient
`C(num_pivot_, pivotCombQty)`. -/
theorem getPostQtys_one_eq_choose (num_pivot_ pivotCombQty : Nat)
    (hq : pivotCombQty = 1 ∨ pivotCombQty = 2 ∨ pivotCombQty = 3)
    (h3 : pivotCombQty = 3 → 2 ≤ num_pivot_)
    (hfit : num_pivot_.descFactorial pivotCombQty < 2 ^ 64) :
    getPostQtys num_pivot_ pivotCombQty 1 = some (num_pivot_.choose pivotCombQty) := by
  rcases hq with rfl | rfl | rfl
  · have hn : num_pivot_ < 2 ^ 64 := by simpa using hfit
    simp [getPostQtys, getPostQtysOnePivot, sub64_self_one, u64_of_lt hn]
  · have hn : num_pivot_ * (num_pivot_ - 1) < 2 ^ 64 := by
      have h2 : num_pivot_.descFactorial 2 = num_pivot_ * (num_pivot_ - 1) := by
        simp [Nat.descFactorial_succ, Nat.descFactorial_zero]
        ring
      rw [← h2]
      exact hfit
    have hd : num_pivot_.choose 2 < 2 ^ 64 := by
      rw [← tri_eq_choose]
      omega
    simp [getPostQtys, getPostQtysTwoPivots, sub64_self_one, mul_sub64_eq hn, u64_of_lt hd,
      tri_eq_choose]
  · have hn : num_pivot_ * (num_pivot_ - 1) * (num_pivot_ - 2) < 2 ^ 64 := by
      have h2 : num_pivot_.descFactorial 3
          = num_pivot_ * (num_pivot_ - 1) * (num_pivot_ - 2) := by
        simp [Nat.descFactorial_succ, Nat.descFactorial_zero]
        ring
      rw [← h2]
      exact hfit
    have hd : num_pivot_.choose 3 < 2 ^ 64 := by
      rw [← tet_eq_choose]
      omega
    have h2 := h3 rfl
    simp [getPostQtys, getPostQtysThreePivots, sub64_self_one, mul_mul_sub64_eq hn,
      u64_of_lt hd, tet_eq_choose, h2]

/-- C5, amended, at the scenario of the specification: 16 pivots and pairs give 120 posting
lists. -/
theorem getPostQtys_one_eq_choose_witness :
    Nat.descFactorial 16 2 < 2 ^ 64 ∧ getPostQtys 16 2 1 = some (Nat.choose 16 2) ∧
      Nat.choose 16 2 = 120 :=
  ⟨by decide,
   getPostQtys_one_eq_choose 16 2 (by decide) (by decide) (by decide),
   by decide⟩

/-- C9: `getPostQtys` rejects an illegal combination arity: whatever `num_pivot_` and
`skipVal` (at least 1) are, the call fails, and returns no value, when `pivotCombQty` is 0 or
greater than 3. -/
theorem getPostQtys_illegal_arity (num_pivot_ pivotCombQty skipVal : Nat)
    (_hs : 1 ≤ skipVal) (hq : pivotCombQty = 0 ∨ 3 < pivotCombQty) :
    getPostQtys num_pivot_ pivotCombQty skipVal = none := by
  unfold getPostQtys
  rw [if_pos (by omega)]

/-- C9, at 16 pivots, arity 4 and skip 1. -/
theorem getPostQtys_illegal_arity_witness : getPostQtys 16 4 1 = none :=
  getPostQtys_illegal_arity 16 4 1 (by decide) (by decide)

/-! ## Failure and symmetry of `PostingListIndex` as compiled -/

/-- C6 as stated fails: with 92683 pivots the bound of the two-pivot overload,
`C(92683, 2) = 4295022903`, is stored in 32 bits as 55607, and the valid pair (0, 400) of rank
79800 fails the check on the result; with 2955 pivots the bound of the three-pivot overload,
`C(2955, 3) = 4296157285`, is stored as 1189989, and the valid triple (10, 20, 400) fails
it. -/
theorem PostingListIndex_fails_on_valid_ids :
    (PostingListIndex2 92683 0 400 = none ∧ (0 : Nat) ≠ 400 ∧ 0 < 92683 ∧ 400 < 92683) ∧
    (PostingListIndex3 2955 10 20 400 = none ∧
      (10 : Nat) ≠ 20 ∧ (10 : Nat) ≠ 400 ∧ (20 : Nat) ≠ 400 ∧
      10 < 2955 ∧ 20 < 2955 ∧ 400 < 2955) := by
  decide

/-- C6, amended: when the id space fits the 32-bit id type, that is
`num_pivot_ * (num_pivot_ - 1) / 2 < 2 ^ 32` for the two-pivot overload and
`num_pivot_ * (num_pivot_ - 1) * (num_pivot_ - 2) / 6 < 2 ^ 32` for the three-pivot one,
`PostingListIndex` (its bound computed from the same `num_pivot_`) fails exactly on invalid
ids: if and only if two ids are equal or one of them is not below `num_pivot_`.  So the check
on the result never fires for valid ids. -/
theorem PostingListIndex_fails_iff :
    (∀ num_pivot_ a b, num_pivot_ * (num_pivot_ - 1) / 2 < 2 ^ 32 →
      (PostingListIndex2 num_pivot_ a b = none ↔
        (a = b ∨ num_pivot_ ≤ a ∨ num_pivot_ ≤ b))) ∧
    (∀ num_pivot_ a b c, num_pivot_ * (num_pivot_ - 1) * (num_pivot_ - 2) / 6 < 2 ^ 32 →
      (PostingListIndex3 num_pivot_ a b c = none ↔
        (a = b ∨ a = c ∨ b = c ∨ num_pivot_ ≤ a ∨ num_pivot_ ≤ b ∨ num_pivot_ ≤ c))) := by
  constructor
  · intro n a b hn
    rw [tri_eq_choose] at hn
    constructor
    · intro h
      by_contra hv
      unfold PostingListIndex2 at h
      split_ifs at h with hgt
      · exact body2_isSome hn hgt (by omega) h
      · exact body2_isSome hn (by omega) (by omega) h
    · intro hv
      unfold PostingListIndex2
      split_ifs with hgt
      · unfold PostingListIndex2.body
        rw [if_neg (by omega), if_pos (by omega)]
      · unfold PostingListIndex2.body
        by_cases hab : a = b
        · rw [if_pos hab]
        · rw [if_neg hab, if_pos (by omega)]
  · intro n a b c hn
    rw [tet_eq_choose] at hn
    obtain ⟨p1, p2, p3, hs, h12, h23, hcases⟩ := sort3_cases a b c
    unfold PostingListIndex3
    rw [hs]
    show PostingListIndex3.body n (resUB3 n) p1 p2 p3 = none ↔ _
    constructor
    · intro h
      by_contra hv
      exact body3_isSome hn (by omega) (by omega) (by omega) h
    · intro hv
      unfold PostingListIndex3.body
      rw [if_pos (by omega)]

/-- C6, amended, on an index with 16 pivots: the pair (5, 5) fails and so does the triple
(3, 16, 5). -/
theorem PostingListIndex_fails_iff_witness :
    PostingListIndex2 16 5 5 = none ∧ PostingListIndex3 16 3 16 5 = none :=
  ⟨(PostingListIndex_fails_iff.1 16 5 5 (by decide)).2 (Or.inl rfl),
   (PostingListIndex_fails_iff.2 16 3 16 5 (by decide)).2 (by decide)⟩

theorem sort3_swap12 (a b c : Nat) : sort3 b a c = sort3 a b c := by
  unfold sort3
  split_ifs <;> first
    | rfl
    | omega
    | (have hab : a = b := by omega
       subst hab
       rfl)

theorem sort3_swap23 (a b c : Nat) : sort3 a c b = sort3 a b c := by
  unfold sort3
  split_ifs <;> first
    | rfl
    | omega
    | (have hbc : b = c := by omega
       subst hbc
       rfl)

/-- C7: `PostingListIndex` depends only on the unordered set of its arguments: the two-pivot
overload has the same outcome (the same value, or a failure in both cases) on (a, b) and on
(b, a), and the three-pivot overload has the same outcome on all six orderings of
(a, b, c). -/
theorem PostingListIndex_unordered (num_pivot_ a b c : Nat) :
    PostingListIndex2 num_pivot_ b a = PostingListIndex2 num_pivot_ a b ∧
    PostingListIndex3 num_pivot_ a c b = PostingListIndex3 num_pivot_ a b c ∧
    PostingListIndex3 num_pivot_ b a c = PostingListIndex3 num_pivot_ a b c ∧
    PostingListIndex3 num_pivot_ b c a = PostingListIndex3 num_pivot_ a b c ∧
    PostingListIndex3 num_pivot_ c a b = PostingListIndex3 num_pivot_ a b c ∧
    PostingListIndex3 num_pivot_ c b a = PostingListIndex3 num_pivot_ a b c := by
  refine ⟨?_, ?_, ?_, ?_, ?_, ?_⟩
  · unfold PostingListIndex2
    split_ifs with h1 h2 h2
    · omega
    · rfl
    · rfl
    · have hab : a = b := by omega
      rw [hab]
  · unfold PostingListIndex3
    rw [sort3_swap23]
  · unfold PostingListIndex3
    rw [sort3_swap12]
  · unfold PostingListIndex3
    rw [sort3_swap23 b a c, sort3_swap12]
  · unfold PostingListIndex3
    rw [sort3_swap12 a c b, sort3_swap23]
  · unfold PostingListIndex3
    rw [sort3_swap12 b c a, sort3_swap23 b a c, sort3_swap12]

/-! ## The loop of `flushTmpPost` -/

theorem flushTmpPost.appended_zero {α : Type} (pl tl : List (List α)) :
    flushTmpPost.appended 0 pl tl = pl := by
  unfold flushTmpPost.appended
  rfl

theorem flushTmpPost.cleared_zero {α : Type} (tl : List (List α)) :
    flushTmpPost.cleared 0 tl = tl := by
  unfold flushTmpPost.cleared
  rfl

/-- The loop, started behind the slots already handled, completes when the mutexes and the two
vectors cover the slots that are left, the counter stays in its type and none of the temporary
lists of these slots is empty; it leaves the closed form. -/
theorem flushTmpPost.loop_ok {α : Type} (m : Nat) :
    ∀ (k : Nat) (pre rest pre' rest' : List (List α)), pre'.length = pre.length →
      k ≤ rest.length → k ≤ rest'.length →
      (k = 0 ∨ (pre.length + k ≤ m ∧ pre.length + k < 2 ^ 31)) →
      (∀ l ∈ rest'.take k, l ≠ []) →
      flushTmpPost.loop m k pre.length (pre ++ rest) (pre' ++ rest')
        = Outcome.ok (pre ++ flushTmpPost.appended k rest rest',
            pre' ++ flushTmpPost.cleared k rest') := by
  intro k
  induction k with
  | zero =>
    intro pre rest pre' rest' _ _ _ _ _
    rw [flushTmpPost.appended_zero, flushTmpPost.cleared_zero]
    rfl
  | succ k ih =>
    intro pre rest pre' rest' hlen hr hr' hm hne
    match rest, rest', hr, hr', hne with
    | x :: xs, y :: ys, hr, hr', hne =>
      have hy : ¬ y.length = 0 := by
        intro h0
        exact hne y (by simp) (List.length_eq_zero.1 h0)
      have hys : ∀ l ∈ ys.take k, l ≠ [] := by
        intro l hl
        exact hne l (by simp [hl])
      have h1 : (pre ++ x :: xs)[pre.length]? = some x := by
        rw [List.getElem?_append_right (le_refl _)]
        simp
      have h2 : (pre' ++ y :: ys)[pre.length]? = some y := by
        rw [← hlen, List.getElem?_append_right (le_refl _)]
        simp
      have h3 : (pre ++ x :: xs).set pre.length (x ++ y) = (pre ++ [x ++ y]) ++ xs := by
        rw [List.set_append_right _ _ (le_refl _)]
        simp
      have h4 : (pre' ++ y :: ys).set pre.length ([] : List α) = (pre' ++ [[]]) ++ ys := by
        rw [← hlen, List.set_append_right _ _ (le_refl _)]
        simp
      have h5 : pre.length + 1 = (pre ++ [x ++ y]).length := by simp
      unfold flushTmpPost.loop
      rw [if_neg (by omega), h1, h2]
      simp only []
      rw [if_neg hy, if_neg (by omega), h3, h4, h5]
      rw [ih (pre ++ [x ++ y]) xs (pre' ++ [[]]) ys (by simp [hlen])
        (by simpa using hr) (by simpa using hr')
        (by simp only [List.length_append, List.length_singleton]; omega) hys]
      simp [flushTmpPost.appended, flushTmpPost.cleared]

/-- The loop completes only when the mutexes and the two vectors cover the slots that are
left, the counter stays in its type and none of the temporary lists of these slots is
empty. -/
theorem flushTmpPost.loop_ok_only {α : Type} (m : Nat) :
    ∀ (k : Nat) (pre rest pre' rest' : List (List α)) (r : List (List α) × List (List α)),
      pre'.length = pre.length →
      flushTmpPost.loop m k pre.length (pre ++ rest) (pre' ++ rest') = Outcome.ok r →
      k ≤ rest.length ∧ k ≤ rest'.length ∧
        (k = 0 ∨ (pre.length + k ≤ m ∧ pre.length + k < 2 ^ 31)) ∧
        (∀ l ∈ rest'.take k, l ≠ []) := by
  intro k
  induction k with
  | zero =>
    intro pre rest pre' rest' r _ _
    exact ⟨Nat.zero_le _, Nat.zero_le _, Or.inl rfl, by simp⟩
  | succ k ih =>
    intro pre rest pre' rest' r hlen h
    unfold flushTmpPost.loop at h
    by_cases hm : pre.length < m
    · rw [if_neg (by omega)] at h
      match rest, rest' with
      | [], _ =>
        rw [List.append_nil, List.getElem?_eq_none (le_refl _)] at h
        simp at h
      | x :: xs, [] =>
        rw [List.append_nil, ← hlen, List.getElem?_eq_none (l := pre') (le_refl _)] at h
        simp at h
      | x :: xs, y :: ys =>
        have h1 : (pre ++ x :: xs)[pre.length]? = some x := by
          rw [List.getElem?_append_right (le_refl _)]
          simp
        have h2 : (pre' ++ y :: ys)[pre.length]? = some y := by
          rw [← hlen, List.getElem?_append_right (le_refl _)]
          simp
        have h3 : (pre ++ x :: xs).set pre.length (x ++ y) = (pre ++ [x ++ y]) ++ xs := by
          rw [List.set_append_right _ _ (le_refl _)]
          simp
        have h4 : (pre' ++ y :: ys).set pre.length ([] : List α) = (pre' ++ [[]]) ++ ys := by
          rw [← hlen, List.set_append_right _ _ (le_refl _)]
          simp
        have h5 : pre.length + 1 = (pre ++ [x ++ y]).length := by simp
        rw [h1, h2] at h
        simp only [] at h
        by_cases hy : y.length = 0
        · rw [if_pos hy] at h
          cases h
        · rw [if_neg hy] at h
          by_cases hc : pre.length + 1 < 2 ^ 31
          · rw [if_neg (not_not.2 hc), h3, h4, h5] at h
            obtain ⟨ha, hb, hd, he⟩ :=
              ih (pre ++ [x ++ y]) xs (pre' ++ [[]]) ys r (by simp [hlen]) h
            simp only [List.length_append, List.length_singleton, List.length_cons] at hd ⊢
            refine ⟨by omega, by omega, Or.inr (by omega), ?_⟩
            intro l hl
            simp only [List.take_succ_cons, List.mem_cons] at hl
            rcases hl with rfl | hl
            · intro h0
              exact hy (by simp [h0])
            · exact he l hl
          · rw [if_pos hc] at h
            cases h
    · rw [if_pos (by omega)] at h
      cases h

/-! ## `flushTmpPost`: when it completes and what it leaves -/

/-- State that a completed `flushTmpPost(threadId)` leaves, `tmpAllPivList` being the
temporary lists of the thread before the call. -/
theorem flushTmpPost_ok {α : Type} {s : State α} {threadId : Nat} {tmpAllPivList : List (List α)}
    (ht : s.tmp_posting_lists_[threadId]? = some tmpAllPivList)
    (hq : threadId < s.tmp_post_doc_qty_.length)
    (hpl : s.maxPostQty_ ≤ s.posting_lists_.length)
    (htl : s.maxPostQty_ ≤ tmpAllPivList.length)
    (hm : s.maxPostQty_ = 0 ∨
      (s.maxPostQty_ ≤ s.post_list_mutexes_ ∧ s.maxPostQty_ < 2 ^ 31))
    (hne : ∀ l ∈ tmpAllPivList.take s.maxPostQty_, l ≠ []) :
    flushTmpPost s threadId = Outcome.ok
      { s with
        posting_lists_ := flushTmpPost.appended s.maxPostQty_ s.posting_lists_ tmpAllPivList
        tmp_posting_lists_ :=
          s.tmp_posting_lists_.set threadId (flushTmpPost.cleared s.maxPostQty_ tmpAllPivList)
        tmp_post_doc_qty_ := s.tmp_post_doc_qty_.set threadId 0 } := by
  have hlt : threadId < s.tmp_posting_lists_.length := by
    by_contra hge
    rw [List.getElem?_eq_none (by omega)] at ht
    cases ht
  have hm2 : s.maxPostQty_ = 0 ∨
      (([] : List (List α)).length + s.maxPostQty_ ≤ s.post_list_mutexes_ ∧
        ([] : List (List α)).length + s.maxPostQty_ < 2 ^ 31) := by
    simp only [List.length_nil, Nat.zero_add]
    exact hm
  have hloop := flushTmpPost.loop_ok s.post_list_mutexes_ s.maxPostQty_ [] s.posting_lists_ []
    tmpAllPivList rfl hpl htl hm2 hne
  simp only [List.nil_append, List.length_nil] at hloop
  unfold flushTmpPost
  rw [if_neg (by omega), if_neg (by omega), ht]
  simp only []
  rw [hloop]

/-- A `flushTmpPost(threadId)` that completes had a valid `threadId`, enough mutexes, shared
lists and temporary lists for the `maxPostQty_` slots, a counter inside its type, and no empty
temporary list in these slots. -/
theorem flushTmpPost_ok_only {α : Type} {s s' : State α} {threadId : Nat}
    (h : flushTmpPost s threadId = Outcome.ok s') :
    ∃ tmpAllPivList, s.tmp_posting_lists_[threadId]? = some tmpAllPivList ∧
      threadId < s.tmp_post_doc_qty_.length ∧
      s.maxPostQty_ ≤ s.posting_lists_.length ∧
      s.maxPostQty_ ≤ tmpAllPivList.length ∧
      (s.maxPostQty_ = 0 ∨
        (s.maxPostQty_ ≤ s.post_list_mutexes_ ∧ s.maxPostQty_ < 2 ^ 31)) ∧
      (∀ l ∈ tmpAllPivList.take s.maxPostQty_, l ≠ []) := by
  unfold flushTmpPost at h
  split_ifs at h with h1 h2
  cases ht : s.tmp_posting_lists_[threadId]? with
  | none =>
    rw [ht] at h
    cases h
  | some tl =>
    rw [ht] at h
    simp only [] at h
    cases hl : flushTmpPost.loop s.post_list_mutexes_ s.maxPostQty_ 0 s.posting_lists_ tl with
    | ok r =>
      have hl2 := flushTmpPost.loop_ok_only s.post_list_mutexes_ s.maxPostQty_ []
        s.posting_lists_ [] tl r rfl (by simpa using hl)
      simp only [List.length_nil, Nat.zero_add] at hl2
      exact ⟨tl, rfl, by omega, hl2.1, hl2.2.1, hl2.2.2.1, hl2.2.2.2⟩
    | checkFailed =>
      rw [hl] at h
      cases h
    | undefined =>
      rw [hl] at h
      cases h

theorem flushTmpPost.appended_length {α : Type} :
    ∀ (k : Nat) (pl tl : List (List α)),
      (flushTmpPost.appended k pl tl).length = pl.length := by
  intro k
  induction k with
  | zero =>
    intro pl tl
    rw [flushTmpPost.appended_zero]
  | succ k ih =>
    intro pl tl
    match pl, tl with
    | [], _ => simp [flushTmpPost.appended]
    | x :: xs, [] => simp [flushTmpPost.appended]
    | x :: xs, y :: ys => simp [flushTmpPost.appended, ih]

theorem flushTmpPost.cleared_length {α : Type} :
    ∀ (k : Nat) (tl : List (List α)), (flushTmpPost.cleared k tl).length = tl.length := by
  intro k
  induction k with
  | zero =>
    intro tl
    rw [flushTmpPost.cleared_zero]
  | succ k ih =>
    intro tl
    match tl with
    | [] => simp [flushTmpPost.cleared]
    | y :: ys => simp [flushTmpPost.cleared, ih]

/-- Slot `i` of the closed form, below `k`: the old shared list followed by the temporary
list. -/
theorem flushTmpPost.appended_getElem? {α : Type} :
    ∀ (k : Nat) (pl tl : List (List α)) (i : Nat) (a b : List α), i < k →
      pl[i]? = some a → tl[i]? = some b →
      (flushTmpPost.appended k pl tl)[i]? = some (a ++ b) := by
  intro k
  induction k with
  | zero =>
    intro pl tl i a b hi
    omega
  | succ k ih =>
    intro pl tl i a b hi ha hb
    match pl, tl, i with
    | [], _, _ => simp at ha
    | x :: xs, [], _ => simp at hb
    | x :: xs, y :: ys, 0 =>
      simp only [List.getElem?_cons_zero, Option.some.injEq] at ha hb
      simp [flushTmpPost.appended, ha, hb]
    | x :: xs, y :: ys, j + 1 =>
      simp only [List.getElem?_cons_succ] at ha hb
      simp only [flushTmpPost.appended, List.getElem?_cons_succ]
      exact ih xs ys j a b (by omega) ha hb

/-- With `k` slots at least, the closed form of the temporary lists has its first `k` slots
empty. -/
theorem flushTmpPost.cleared_getElem? {α : Type} :
    ∀ (k : Nat) (tl : List (List α)) (i : Nat), i < k → k ≤ tl.length →
      (flushTmpPost.cleared k tl)[i]? = some [] := by
  intro k
  induction k with
  | zero =>
    intro tl i hi
    omega
  | succ k ih =>
    intro tl i hi hk
    match tl, i with
    | [], _ => simp at hk
    | y :: ys, 0 => simp [flushTmpPost.cleared]
    | y :: ys, j + 1 =>
      simp only [flushTmpPost.cleared, List.getElem?_cons_succ]
      exact ih ys j (by omega) (by simpa using hk)

/-- With exactly `k` slots, every list of the closed form of the temporary lists is empty. -/
theorem flushTmpPost.cleared_all_empty {α : Type} :
    ∀ (k : Nat) (tl : List (List α)), tl.length = k →
      ∀ l ∈ flushTmpPost.cleared k tl, l = [] := by
  intro k
  induction k with
  | zero =>
    intro tl hk l hl
    rw [flushTmpPost.cleared_zero, List.length_eq_zero.1 hk] at hl
    cases hl
  | succ k ih =>
    intro tl hk l hl
    match tl with
    | [] => simp at hk
    | y :: ys =>
      simp only [flushTmpPost.cleared, List.mem_cons] at hl
      rcases hl with rfl | hl
      · rfl
      · exact ih ys (by simpa using hk) l hl

/-! ## Two flushes in a row, by two threads -/

/-- C8 as stated fails.  In `noMutexState` thread 0 is valid and the shared lists and its
temporary lists have the `maxPostQty_ = 1` slots, yet `flushTmpPost(0)` ends in the fatal
error of `CHECK(pivId < post_list_mutexes_.size())` before it has appended an entry.  In
`sampleState` thread 1 is valid and the lists have the `maxPostQty_ = 2` slots, yet
`flushTmpPost(1)` does not complete either: the temporary list of slot 1 is empty, and the
bulk copy subscripts it at 0. -/
theorem flushTmpPost_fails_without_mutex :
    (noMutexState.tmp_posting_lists_[0]? = some [[3]] ∧
      0 < noMutexState.tmp_post_doc_qty_.length ∧
      noMutexState.posting_lists_.length = noMutexState.maxPostQty_ ∧
      ([[3]] : List (List Nat)).length = noMutexState.maxPostQty_ ∧
      flushTmpPost noMutexState 0 = Outcome.checkFailed) ∧
    (sampleState.tmp_posting_lists_[1]? = some [[6], []] ∧
      1 < sampleState.tmp_post_doc_qty_.length ∧
      sampleState.posting_lists_.length = sampleState.maxPostQty_ ∧
      ([[6], []] : List (List Nat)).length = sampleState.maxPostQty_ ∧
      flushTmpPost sampleState 1 = Outcome.undefined) := by
  decide

/-- C8, amended: for every valid `threadId` and every state in which the shared lists and the
thread's temporary lists each have `maxPostQty_` slots, `post_list_mutexes_` has at least
`maxPostQty_` entries, `maxPostQty_` is below `2 ^ 31` (the range of the loop counter) and
none of the thread's temporary lists is empty, `flushTmpPost(threadId)` completes, and
afterwards every shared posting list equals its old contents followed by the old contents of
the thread's temporary list of the same slot, in their order, every temporary list of the
thread is empty, and `tmp_post_doc_qty_[threadId]` is 0. -/
theorem flushTmpPost_appends_and_clears {α : Type} (s : State α) (threadId : Nat)
    (tmpAllPivList : List (List α))
    (ht : s.tmp_posting_lists_[threadId]? = some tmpAllPivList)
    (hq : threadId < s.tmp_post_doc_qty_.length)
    (hpl : s.posting_lists_.length = s.maxPostQty_)
    (htl : tmpAllPivList.length = s.maxPostQty_)
    (hm : s.maxPostQty_ ≤ s.post_list_mutexes_)
    (hc : s.maxPostQty_ < 2 ^ 31)
    (hne : ∀ l ∈ tmpAllPivList, l ≠ []) :
    ∃ s' tmp', flushTmpPost s threadId = Outcome.ok s' ∧
      s'.posting_lists_.length = s.maxPostQty_ ∧
      (∀ (i : Nat) (permList tmpList : List α), s.posting_lists_[i]? = some permList →
        tmpAllPivList[i]? = some tmpList →
        s'.posting_lists_[i]? = some (permList ++ tmpList)) ∧
      s'.tmp_posting_lists_[threadId]? = some tmp' ∧
      tmp'.length = s.maxPostQty_ ∧
      (∀ l ∈ tmp', l = []) ∧
      s'.tmp_post_doc_qty_[threadId]? = some 0 := by
  have hlt : threadId < s.tmp_posting_lists_.length := by
    by_contra hge
    rw [List.getElem?_eq_none (by omega)] at ht
    cases ht
  refine ⟨_, flushTmpPost.cleared s.maxPostQty_ tmpAllPivList,
    flushTmpPost_ok ht hq (by omega) (by omega) (Or.inr ⟨hm, hc⟩)
      (fun l hl => hne l (List.mem_of_mem_take hl)), ?_, ?_, ?_, ?_, ?_, ?_⟩
  · simp only [flushTmpPost.appended_length, hpl]
  · intro i permList tmpList ha hb
    have hi : i < s.maxPostQty_ := by
      rw [← hpl]
      by_contra hge
      rw [List.getElem?_eq_none (by omega)] at ha
      cases ha
    exact flushTmpPost.appended_getElem? _ _ _ i permList tmpList hi ha hb
  · simp only [List.getElem?_set_eq_of_lt _ hlt]
  · rw [flushTmpPost.cleared_length, htl]
  · exact flushTmpPost.cleared_all_empty _ _ htl
  · simp only [List.getElem?_set_eq_of_lt _ hq]

/-- C8, amended, at thread 0 of `sampleState`. -/
theorem flushTmpPost_appends_and_clears_witness :
    ∃ s' tmp', flushTmpPost sampleState 0 = Outcome.ok s' ∧
      s'.posting_lists_.length = sampleState.maxPostQty_ ∧
      (∀ (i : Nat) (permList tmpList : List Nat), sampleState.posting_lists_[i]? = some permList →
        ([[3], [4, 5]] : List (List Nat))[i]? = some tmpList →
        s'.posting_lists_[i]? = some (permList ++ tmpList)) ∧
      s'.tmp_posting_lists_[0]? = some tmp' ∧
      tmp'.length = sampleState.maxPostQty_ ∧
      (∀ l ∈ tmp', l = []) ∧
      s'.tmp_post_doc_qty_[0]? = some 0 :=
  flushTmpPost_appends_and_clears sampleState 0 [[3], [4, 5]] (by decide) (by decide)
    (by decide) (by decide) (by decide) (by decide) (by decide)

/-! ## Flushes of two threads commute up to the order within a list -/

/-- Started on lists whose first temporary list is empty, the loop ends in the subscript of
the bulk copy. -/
theorem flushTmpPost.loop_empty_slot {α : Type} (m k : Nat) (x : List α)
    (xs ys : List (List α)) (hm : 0 < m) :
    flushTmpPost.loop m (k + 1) 0 (x :: xs) ([] :: ys) = Outcome.undefined := by
  unfold flushTmpPost.loop
  rw [if_neg (by omega)]
  simp

/-- After a completed `flushTmpPost(threadId)` on a state with at least one slot, a second
`flushTmpPost(threadId)` ends in the subscript of the bulk copy on the emptied temporary list
of slot 0. -/
theorem flushTmpPost_again_undefined {α : Type} {s s1 : State α} {threadId : Nat}
    (h : flushTmpPost s threadId = Outcome.ok s1) (hk : 1 ≤ s.maxPostQty_) :
    flushTmpPost s1 threadId = Outcome.undefined := by
  obtain ⟨tl, ht, hq, hpl, htl, hm, hne⟩ := flushTmpPost_ok_only h
  have hlt : threadId < s.tmp_posting_lists_.length := by
    by_contra hge
    rw [List.getElem?_eq_none (by omega)] at ht
    cases ht
  rw [flushTmpPost_ok ht hq hpl htl hm hne] at h
  cases h
  obtain ⟨j, hj⟩ : ∃ j, s.maxPostQty_ = j + 1 := ⟨s.maxPostQty_ - 1, by omega⟩
  have hm2 : 0 < s.post_list_mutexes_ := by omega
  unfold flushTmpPost
  simp only [List.length_set]
  rw [if_neg (by omega), if_neg (by omega), List.getElem?_set_eq_of_lt _ hlt]
  simp only []
  rw [hj] at hpl htl ⊢
  match hp : s.posting_lists_, htq : tl, hpl, htl with
  | x :: xs, y :: ys, _, _ =>
    simp only [flushTmpPost.appended, flushTmpPost.cleared]
    rw [flushTmpPost.loop_empty_slot _ _ _ _ _ hm2]

/-- C11 fails on the code.  In `sampleState` the call `flushTmpPost(0)` completes and leaves
the shared lists `[1, 3]` and `[2, 4, 5]` and the temporary lists of thread 0 empty.  A second
`flushTmpPost(0)` then runs the bulk copy `memcpy(&permList[oldSize], &tmpList[0], ...)` on
the empty temporary list of slot 0: both subscripts are outside their vectors, and the two
calls in a row do not end in the state that one call leaves. -/
theorem flushTmpPost_second_flush_undefined :
    flushTmpPost sampleState 0
      = Outcome.ok (State.mk 2 [[1, 3], [2, 4, 5]] 2 [[[], []], [[6], []]] [0, 1]) ∧
    flushTmpPost (State.mk 2 [[1, 3], [2, 4, 5]] 2 [[[], []], [[6], []]] [0, 1]) 0
      = Outcome.undefined ∧
    flushTmpPostTwice sampleState 0 0 = Outcome.undefined := by
  decide

/-! ## What a flush leaves alone -/

/-- C13 fails on the code: the check is `threadId <= tmp_posting_lists_.size()`, and the
`threadId` equal to that size passes it.  In every state the call with this `threadId` goes
past the check and ends in an element access outside `tmp_post_doc_qty_` or
`tmp_posting_lists_`, not in a failed check. -/
theorem flushTmpPost_threadId_off_by_one {α : Type} (s : State α) :
    flushTmpPost s s.tmp_posting_lists_.length = Outcome.undefined := by
  unfold flushTmpPost
  rw [if_neg (by omega)]
  split_ifs with h
  · rw [List.getElem?_eq_none (le_refl _)]
  · rfl

/-! ## A flush conserves the entries of every slot -/

/-- C14 fails on the code.  With 65538 pivots the pairs fit 32 bits (`C(65538, 2) =
2147581953`), yet for the pair (0, 65537) the product `65537 * 65536` leaves 32 bits before
it is halved: the compiled function returns 32768, the id of the pair (128, 256), where the
ranking formula gives 2147516416.  With 1628 pivots the triples fit 32 bits
(`C(1628, 3) = 717812876`), and for the triple (0, 1, 1627) the product `1627 * 1626 * 1625`
wraps: the compiled function returns 662242 where the formula gives 716490125. -/
theorem PostingListIndex_wraps_inside_id_space :
    (65538 * (65538 - 1) / 2 < 2 ^ 32 ∧
      PostingListIndex2 65538 0 65537 = some 32768 ∧
      Exact.PostingListIndex2 65538 0 65537 = some 2147516416 ∧
      PostingListIndex2 65538 128 256 = some 32768) ∧
    (1628 * (1628 - 1) * (1628 - 2) / 6 < 2 ^ 32 ∧
      PostingListIndex3 1628 0 1 1627 = some 662242 ∧
      Exact.PostingListIndex3 1628 0 1 1627 = some 716490125) := by
  decide

/-! ## The static bound across calls -/

/-- With the static not yet initialised, the body of a call returns what the body with the
bound of its own `num_pivot_` returns. -/
theorem PostingListIndex2_callBody_none (n p1 p2 : Nat) :
    (PostingListIndex2.callBody none n p1 p2).1
      = PostingListIndex2.body n (resUB2 n) p1 p2 := by
  unfold PostingListIndex2.callBody PostingListIndex2.body
  by_cases h1 : p1 = p2
  · simp only [h1, if_true]
  · by_cases h2 : p2 < n
    · by_cases h3 : u32 (p1 + u32 (p2 * sub32 p2 1) / 2) < resUB2 n
      · simp only [h1, h2, h3, not_true_eq_false, if_false]
      · simp only [h1, h2, h3, not_true_eq_false, not_false_eq_true, if_false, if_true]
    · simp only [h1, h2, not_false_eq_true, if_false, if_true]

/-- The first call of the program is the call whose bound comes from its own `num_pivot_`. -/
theorem PostingListIndex2_call_first (n a b : Nat) :
    (PostingListIndex2.call none n a b).1 = PostingListIndex2 n a b := by
  unfold PostingListIndex2.call PostingListIndex2
  split_ifs
  · exact PostingListIndex2_callBody_none n b a
  · exact PostingListIndex2_callBody_none n a b

/-- With the static not yet initialised, the body of a call returns what the body with the
bound of its own `num_pivot_` returns. -/
theorem PostingListIndex3_callBody_none (n p1 p2 p3 : Nat) :
    (PostingListIndex3.callBody none n p1 p2 p3).1
      = PostingListIndex3.body n (resUB3 n) p1 p2 p3 := by
  unfold PostingListIndex3.callBody PostingListIndex3.body
  by_cases h1 : p1 < p2 ∧ p2 < p3 ∧ p3 < n
  · by_cases h3 : u32 (u32 (p1 + u32 (p2 * sub32 p2 1) / 2)
        + u32 (u32 (p3 * sub32 p3 1) * sub32 p3 2) / 6) < resUB3 n
    · simp only [h1, h3, and_self, not_true_eq_false, if_false]
    · simp only [h1, h3, and_self, not_true_eq_false, not_false_eq_true, if_false, if_true]
  · simp only [h1, not_false_eq_true, if_true]

/-- The first call of the program is the call whose bound comes from its own `num_pivot_`. -/
theorem PostingListIndex3_call_first (n a b c : Nat) :
    (PostingListIndex3.call none n a b c).1 = PostingListIndex3 n a b c := by
  obtain ⟨p1, p2, p3, hs, -⟩ := sort3_cases a b c
  unfold PostingListIndex3.call PostingListIndex3
  rw [hs]
  exact PostingListIndex3_callBody_none n p1 p2 p3

/-- C15 fails on the code.  After one call `PostingListIndex(0, 1)` on an index with 3 pivots
the static `resUB` of the two-pivot overload is 3 for the rest of the program: the call
`PostingListIndex(3, 5)` on an index with 16 pivots then fails the check on its result, 13,
which it returns when it is the first call.  Likewise after `PostingListIndex(0, 1, 2)` on an
index with 4 pivots the call `PostingListIndex(7, 3, 5)` on an index with 16 pivots fails,
where as the first call it returns 48. -/
theorem PostingListIndex_static_resUB_stale :
    (PostingListIndex2.staticAfter [(3, 0, 1)] = some 3 ∧
      (PostingListIndex2.call (PostingListIndex2.staticAfter [(3, 0, 1)]) 16 3 5).1 = none ∧
      (PostingListIndex2.call none 16 3 5).1 = some 13) ∧
    (PostingListIndex3.staticAfter [(4, 0, 1, 2)] = some 4 ∧
      (PostingListIndex3.call (PostingListIndex3.staticAfter [(4, 0, 1, 2)]) 16 7 3 5).1 = none ∧
      (PostingListIndex3.call none 16 7 3 5).1 = some 48) := by
  decide

/-! ## The number of posting lists with a skip value -/

/-- The quotient `(s - 1 + C) / s` of natural numbers is the ceiling of `C / s`. -/
theorem ceilDiv_eq_ceil (C s : Nat) (hs : 1 ≤ s) :
    (s - 1 + C) / s = ⌈(C : ℚ) / (s : ℚ)⌉₊ := by
  have hsq : (0 : ℚ) < (s : ℚ) := by exact_mod_cast hs
  apply le_antisymm
  · have hc : (C : ℚ) / (s : ℚ) ≤ (⌈(C : ℚ) / (s : ℚ)⌉₊ : ℚ) := Nat.le_ceil _
    rw [div_le_iff₀ hsq] at hc
    have hc2 : C ≤ ⌈(C : ℚ) / (s : ℚ)⌉₊ * s := by exact_mod_cast hc
    apply Nat.le_of_lt_succ
    rw [Nat.div_lt_iff_lt_mul (by omega)]
    rw [Nat.succ_mul]
    omega
  · rw [Nat.ceil_le, div_le_iff₀ hsq]
    have h1 := Nat.div_add_mod (s - 1 + C) s
    have h2 := Nat.mod_lt (s - 1 + C) (show s > 0 by omega)
    have h3 : C ≤ (s - 1 + C) / s * s := by
      rw [Nat.mul_comm]
      omega
    exact_mod_cast h3

/-- The ceiling of `C / s` does not grow with `s`. -/
theorem ceilDiv_antitone (C s t : Nat) (hs : 1 ≤ s) (hst : s ≤ t) :
    (t - 1 + C) / t ≤ (s - 1 + C) / s := by
  rw [ceilDiv_eq_ceil C s hs, ceilDiv_eq_ceil C t (by omega)]
  apply Nat.ceil_mono
  have hsq : (0 : ℚ) < (s : ℚ) := by exact_mod_cast hs
  have hst2 : (s : ℚ) ≤ (t : ℚ) := by exact_mod_cast hst
  exact div_le_div_of_nonneg_left (Nat.cast_nonneg C) hsq hst2

/-- The quotient that `getPostQtys` forms in `size_t` from a count `C` does not grow with
`skipVal`: beyond the skips for which `skipVal - 1 + C` fits 64 bits it is 0. -/
theorem skipQuotient_antitone (C s t : Nat) (hC : C < 2 ^ 64) (hs : 1 ≤ s) (hst : s ≤ t)
    (ht : t < 2 ^ 64) :
    u64 (sub64 t 1 + C) / t ≤ u64 (sub64 s 1 + C) / s := by
  rw [sub64_eq (by omega) ht, sub64_eq hs (by omega)]
  by_cases hw : t - 1 + C < 2 ^ 64
  · rw [u64_of_lt hw, u64_of_lt (by omega)]
    exact ceilDiv_antitone C s t hs hst
  · have h0 : u64 (t - 1 + C) / t = 0 := by
      apply Nat.div_eq_of_lt
      unfold u64
      omega
    rw [h0]
    exact Nat.zero_le _

/-- The count `C` that `getPostQtys` divides by the skip: a value of `size_t`, the binomial
coefficient when the falling product fits 64 bits, and every value returned is the quotient
formed from it. -/
theorem getPostQtys_count (n k : Nat) (hq : k = 1 ∨ k = 2 ∨ k = 3) (hn : n < 2 ^ 64) :
    ∃ C, C < 2 ^ 64 ∧ (n.descFactorial k < 2 ^ 64 → C = n.choose k) ∧
      ∀ s r, getPostQtys n k s = some r → r = u64 (sub64 s 1 + C) / s := by
  rcases hq with rfl | rfl | rfl
  · refine ⟨n, hn, fun _ => by simp, ?_⟩
    intro s r h
    simp only [getPostQtys, getPostQtysOnePivot] at h
    simpa using h.symm
  · refine ⟨u64 (n * sub64 n 1) / 2, ?_, ?_, ?_⟩
    · have := Nat.mod_lt (n * sub64 n 1) (show 2 ^ 64 > 0 by norm_num)
      unfold u64
      omega
    · intro hfit
      have h2 : n.descFactorial 2 = n * (n - 1) := by
        simp [Nat.descFactorial_succ, Nat.descFactorial_zero]
        ring
      rw [h2] at hfit
      rw [mul_sub64_eq hfit, tri_eq_choose]
    · intro s r h
      simp only [getPostQtys, getPostQtysTwoPivots] at h
      simpa using h.symm
  · refine ⟨u64 (u64 (n * sub64 n 1) * sub64 n 2) / 6, ?_, ?_, ?_⟩
    · have := Nat.mod_lt (u64 (n * sub64 n 1) * sub64 n 2) (show 2 ^ 64 > 0 by norm_num)
      unfold u64 at this ⊢
      omega
    · intro hfit
      have h2 : n.descFactorial 3 = n * (n - 1) * (n - 2) := by
        simp [Nat.descFactorial_succ, Nat.descFactorial_zero]
        ring
      rw [h2] at hfit
      rw [mul_mul_sub64_eq hfit, tet_eq_choose]
    · intro s r h
      simp only [getPostQtys, getPostQtysThreePivots] at h
      by_cases h2 : 2 ≤ n
      · simpa [h2] using h.symm
      · simp [h2] at h

/-- C17 as stated fails: with 16 pivots, pairs and the skip `2 ^ 64 - 1` the sum
`skipVal - 1 + 120` leaves `size_t`, and `getPostQtys` returns 0 where the ceiling of
`120 / (2 ^ 64 - 1)` is 1. -/
theorem getPostQtys_ne_ceil :
    getPostQtys 16 2 (2 ^ 64 - 1) = some 0 ∧
    ⌈((Nat.choose 16 2 : Nat) : ℚ) / ((2 ^ 64 - 1 : Nat) : ℚ)⌉₊ = 1 := by
  refine ⟨by decide, ?_⟩
  rw [← ceilDiv_eq_ceil _ _ (by norm_num)]
  decide

/-- C17, amended: for `pivotCombQty` in {1, 2, 3} and `num_pivot_` and `skipVal >= 1` in the
range of `size_t`, whenever `getPostQtys(pivotCombQty, skipVal)` returns a value, that value
is the ceiling of `C(num_pivot_, pivotCombQty) / skipVal` provided that the falling product
of `pivotCombQty` factors and the sum `skipVal - 1 + C(num_pivot_, pivotCombQty)`, which the
code forms in `size_t`, are below `2 ^ 64`; and, with no such proviso, the value returned does
not grow with `skipVal`. -/
theorem getPostQtys_ceil_antitone (num_pivot_ pivotCombQty : Nat)
    (hq : pivotCombQty = 1 ∨ pivotCombQty = 2 ∨ pivotCombQty = 3)
    (hn : num_pivot_ < 2 ^ 64) :
    (∀ skipVal r, 1 ≤ skipVal → skipVal < 2 ^ 64 →
      num_pivot_.descFactorial pivotCombQty < 2 ^ 64 →
      skipVal - 1 + num_pivot_.choose pivotCombQty < 2 ^ 64 →
      getPostQtys num_pivot_ pivotCombQty skipVal = some r →
      r = ⌈((num_pivot_.choose pivotCombQty : Nat) : ℚ) / (skipVal : ℚ)⌉₊) ∧
    (∀ skipVal skipVal2 r r2, 1 ≤ skipVal → skipVal ≤ skipVal2 → skipVal2 < 2 ^ 64 →
      getPostQtys num_pivot_ pivotCombQty skipVal = some r →
      getPostQtys num_pivot_ pivotCombQty skipVal2 = some r2 →
      r2 ≤ r) := by
  obtain ⟨C, hC, hchoose, hval⟩ := getPostQtys_count num_pivot_ pivotCombQty hq hn
  constructor
  · intro s r hs hs2 hfit hsum h
    rw [hval s r h, hchoose hfit, sub64_eq hs hs2, u64_of_lt hsum]
    exact ceilDiv_eq_ceil _ s hs
  · intro s t r r2 hs hst ht h h2
    rw [hval s r h, hval t r2 h2]
    exact skipQuotient_antitone C s t hC hs hst ht

/-- C17, amended, with 16 pivots and pairs: the skip 7 gives `ceil(120 / 7)`, and the skip 9
gives no more than the skip 7. -/
theorem getPostQtys_ceil_antitone_witness :
    getPostQtys 16 2 7 = some 18 ∧
    18 = ⌈((Nat.choose 16 2 : Nat) : ℚ) / ((7 : Nat) : ℚ)⌉₊ ∧
    getPostQtys 16 2 9 = some 14 ∧ 14 ≤ 18 :=
  ⟨by decide,
   (getPostQtys_ceil_antitone 16 2 (by decide) (by decide)).1 7 18 (by decide) (by decide)
     (by decide) (by decide) (by decide),
   by decide,
   (getPostQtys_ceil_antitone 16 2 (by decide) (by decide)).2 7 9 18 14 (by decide)
     (by decide) (by decide) (by decide) (by decide)⟩

/-! ## The image of the combination id as compiled -/

/-- What the body of the two-pivot `PostingListIndex` returns, when it returns. -/
theorem body2_some {n ub p1 p2 r : Nat} (h : PostingListIndex2.body n ub p1 p2 = some r) :
    p1 ≠ p2 ∧ p2 < n ∧ r = u32 (p1 + u32 (p2 * sub32 p2 1) / 2) := by
  unfold PostingListIndex2.body at h
  by_cases h1 : p1 = p2
  · rw [if_pos h1] at h
    cases h
  · rw [if_neg h1] at h
    by_cases h2 : p2 < n
    · rw [if_neg (not_not.2 h2)] at h
      simp only [] at h
      by_cases h3 : u32 (p1 + u32 (p2 * sub32 p2 1) / 2) < ub
      · rw [if_neg (not_not.2 h3)] at h
        exact ⟨h1, h2, (Option.some.inj h).symm⟩
      · rw [if_pos h3] at h
        cases h
    · rw [if_pos h2] at h
      cases h

/-- What the body of the three-pivot `PostingListIndex` returns, when it returns. -/
theorem body3_some {n ub p1 p2 p3 r : Nat}
    (h : PostingListIndex3.body n ub p1 p2 p3 = some r) :
    p1 < p2 ∧ p2 < p3 ∧ p3 < n ∧
      r = u32 (u32 (p1 + u32 (p2 * sub32 p2 1) / 2)
            + u32 (u32 (p3 * sub32 p3 1) * sub32 p3 2) / 6) := by
  unfold PostingListIndex3.body at h
  by_cases h1 : p1 < p2 ∧ p2 < p3 ∧ p3 < n
  · rw [if_neg (not_not.2 h1)] at h
    simp only [] at h
    by_cases h3 : u32 (u32 (p1 + u32 (p2 * sub32 p2 1) / 2)
        + u32 (u32 (p3 * sub32 p3 1) * sub32 p3 2) / 6) < ub
    · rw [if_neg (not_not.2 h3)] at h
      exact ⟨h1.1, h1.2.1, h1.2.2, (Option.some.inj h).symm⟩
    · rw [if_pos h3] at h
      cases h
  · rw [if_pos h1] at h
    cases h

/-- With 65538 pivots every rank that the compiled two-pivot formula forms is below
`C(65537, 2) = 2147516416`: the ranks of the pairs with the larger id 65537 wrap around. -/
theorem machine_rank2_lt_65538 {p1 p2 : Nat} (h12 : p1 < p2) (h2 : p2 < 65538) :
    u32 (p1 + u32 (p2 * sub32 p2 1) / 2) < 2147516416 := by
  have hc : Nat.choose 65537 2 = 2147516416 := by
    rw [← tri_eq_choose]
  rcases Nat.lt_or_ge p2 65537 with hlt | hge
  · have h3 := @machine_rank2_le p1 p2 (by omega) (by omega)
    have h4 := @rank2_lt 65537 p1 p2 h12 hlt
    omega
  · have hp : p2 = 65537 := by omega
    subst hp
    have h5 : u32 (65537 * sub32 65537 1) = 65536 := by decide
    rw [h5]
    have h6 := u32_le (p1 + 65536 / 2)
    omega

/-- With 1628 pivots every rank that the compiled three-pivot formula forms is below
`C(1627, 3) = 716490125`: the ranks of the triples with the largest id 1627 wrap around. -/
theorem machine_rank3_lt_1628 {p1 p2 p3 : Nat} (h12 : p1 < p2) (h23 : p2 < p3)
    (h3 : p3 < 1628) :
    u32 (u32 (p1 + u32 (p2 * sub32 p2 1) / 2)
          + u32 (u32 (p3 * sub32 p3 1) * sub32 p3 2) / 6) < 716490125 := by
  have hc3 : Nat.choose 1627 3 = 716490125 := by
    rw [← tet_eq_choose]
  have hc2 : Nat.choose 1627 2 = 1322751 := by
    rw [← tri_eq_choose]
  rcases Nat.lt_or_ge p3 1627 with hlt | hge
  · have h4 := @machine_rank3_le p1 p2 p3 (by omega) (by omega) (by omega) (by omega)
    have h5 := @rank3_lt 1627 p1 p2 p3 h12 h23 hlt
    omega
  · have hp : p3 = 1627 := by omega
    subst hp
    have h6 : u32 (u32 (1627 * sub32 1627 1) * sub32 1627 2) = 3973454 := by decide
    rw [h6]
    have h7 := @machine_rank2_le p1 p2 (by omega) (by omega)
    have h8 := @rank2_lt 1627 p1 p2 h12 h23
    have h9 := u32_le (u32 (p1 + u32 (p2 * sub32 p2 1) / 2) + 3973454 / 6)
    omega

/-- C3 as stated fails on the compiled function.  With 92683 pivots the valid pair (0, 401)
yields no result: its rank 80200 is not below the bound stored in 32 bits, 55607.  With 65538
pivots the number 2147581952 is below `C(65538, 2) = 2147581953`, and no valid pair has it as
its result: the ranks of the pairs with the larger id 65537 wrap around in 32 bits. -/
theorem PostingListIndex2_image_fails :
    ((0 : Nat) ≠ 401 ∧ 0 < 92683 ∧ 401 < 92683 ∧ PostingListIndex2 92683 0 401 = none) ∧
    (2147581952 < 65538 * (65538 - 1) / 2 ∧
      ¬ ∃ a b, a ≠ b ∧ a < 65538 ∧ b < 65538 ∧
        PostingListIndex2 65538 a b = some 2147581952) := by
  refine ⟨by decide, by decide, ?_⟩
  rintro ⟨a, b, hab, ha, hb, h⟩
  unfold PostingListIndex2 at h
  split_ifs at h with hgt
  · obtain ⟨-, -, hr⟩ := body2_some h
    have := @machine_rank2_lt_65538 b a hgt ha
    omega
  · obtain ⟨-, -, hr⟩ := body2_some h
    have := @machine_rank2_lt_65538 a b (by omega) hb
    omega

/-- C3, amended: for every `num_pivot_` up to 65537, the range in which no operation of the
32-bit formula wraps around, the image of the two-pivot `PostingListIndex` is exactly
`[0, C(num_pivot_, 2))`: every pair of distinct pivot ids below `num_pivot_` yields a result
below `num_pivot_ * (num_pivot_ - 1) / 2`, and every number below that bound is the result of
such a pair. -/
theorem PostingListIndex2_image (num_pivot_ : Nat) (hn : num_pivot_ ≤ 65537) :
    (∀ a b, a ≠ b → a < num_pivot_ → b < num_pivot_ →
      ∃ r, PostingListIndex2 num_pivot_ a b = some r ∧
        r < num_pivot_ * (num_pivot_ - 1) / 2) ∧
    (∀ r, r < num_pivot_ * (num_pivot_ - 1) / 2 →
      ∃ a b, a ≠ b ∧ a < num_pivot_ ∧ b < num_pivot_ ∧
        PostingListIndex2 num_pivot_ a b = some r) := by
  obtain ⟨h1, h2⟩ := PostingListIndex2_image_exact num_pivot_
  constructor
  · intro a b hab ha hb
    rw [PostingListIndex2_eq_exact hn]
    exact h1 a b hab ha hb
  · intro r hr
    obtain ⟨a, b, hab, ha, hb, hv⟩ := h2 r hr
    exact ⟨a, b, hab, ha, hb, by rw [PostingListIndex2_eq_exact hn]; exact hv⟩

/-- C3, amended, on an index with 16 pivots: the pair (5, 3) has a result below 120 and 119 is
the result of a pair. -/
theorem PostingListIndex2_image_witness :
    (∃ r, PostingListIndex2 16 5 3 = some r ∧ r < 16 * (16 - 1) / 2) ∧
    (∃ a b, a ≠ b ∧ a < 16 ∧ b < 16 ∧ PostingListIndex2 16 a b = some 119) :=
  ⟨(PostingListIndex2_image 16 (by decide)).1 5 3 (by decide) (by decide) (by decide),
   (PostingListIndex2_image 16 (by decide)).2 119 (by decide)⟩

/-- C4 as stated fails on the compiled function.  With 2955 pivots the valid triple
(11, 21, 401) yields no result: its rank 10666821 is not below the bound stored in 32 bits,
1189989.  With 1628 pivots the number 717812875 is below `C(1628, 3) = 717812876`, and no
valid triple has it as its result: the ranks of the triples with the largest id 1627 wrap
around in 32 bits. -/
theorem PostingListIndex3_image_fails :
    ((11 : Nat) ≠ 21 ∧ (11 : Nat) ≠ 401 ∧ (21 : Nat) ≠ 401 ∧
      11 < 2955 ∧ 21 < 2955 ∧ 401 < 2955 ∧ PostingListIndex3 2955 11 21 401 = none) ∧
    (717812875 < 1628 * (1628 - 1) * (1628 - 2) / 6 ∧
      ¬ ∃ a b c, a ≠ b ∧ a ≠ c ∧ b ≠ c ∧ a < 1628 ∧ b < 1628 ∧ c < 1628 ∧
        PostingListIndex3 1628 a b c = some 717812875) := by
  refine ⟨by decide, by decide, ?_⟩
  rintro ⟨a, b, c, hab, hac, hbc, ha, hb, hc, h⟩
  obtain ⟨p1, p2, p3, hs, -, -, -⟩ := sort3_cases a b c
  unfold PostingListIndex3 at h
  rw [hs] at h
  have h2 : PostingListIndex3.body 1628 (resUB3 1628) p1 p2 p3 = some 717812875 := h
  obtain ⟨h12, h23, h3, hr⟩ := body3_some h2
  have := @machine_rank3_lt_1628 p1 p2 p3 h12 h23 h3
  omega

/-- C4, amended: for every `num_pivot_` up to 1627, the range in which no operation of the
32-bit formula wraps around, the image of the three-pivot `PostingListIndex` is exactly
`[0, C(num_pivot_, 3))`: every triple of pairwise distinct pivot ids below `num_pivot_` yields
a result below `num_pivot_ * (num_pivot_ - 1) * (num_pivot_ - 2) / 6`, and every number below
that bound is the result of such a triple. -/
theorem PostingListIndex3_image (num_pivot_ : Nat) (hn : num_pivot_ ≤ 1627) :
    (∀ a b c, a ≠ b → a ≠ c → b ≠ c → a < num_pivot_ → b < num_pivot_ → c < num_pivot_ →
      ∃ r, PostingListIndex3 num_pivot_ a b c = some r ∧
        r < num_pivot_ * (num_pivot_ - 1) * (num_pivot_ - 2) / 6) ∧
    (∀ r, r < num_pivot_ * (num_pivot_ - 1) * (num_pivot_ - 2) / 6 →
      ∃ a b c, a ≠ b ∧ a ≠ c ∧ b ≠ c ∧ a < num_pivot_ ∧ b < num_pivot_ ∧ c < num_pivot_ ∧
        PostingListIndex3 num_pivot_ a b c = some r) := by
  obtain ⟨h1, h2⟩ := PostingListIndex3_image_exact num_pivot_
  constructor
  · intro a b c hab hac hbc ha hb hc
    rw [PostingListIndex3_eq_exact hn]
    exact h1 a b c hab hac hbc ha hb hc
  · intro r hr
    obtain ⟨a, b, c, hab, hac, hbc, ha, hb, hc, hv⟩ := h2 r hr
    exact ⟨a, b, c, hab, hac, hbc, ha, hb, hc,
      by rw [PostingListIndex3_eq_exact hn]; exact hv⟩

/-- C4, amended, on an index with 16 pivots: the triple (7, 3, 5) has a result below 560 and
559 is the result of a triple. -/
theorem PostingListIndex3_image_witness :
    (∃ r, PostingListIndex3 16 7 3 5 = some r ∧ r < 16 * (16 - 1) * (16 - 2) / 6) ∧
    (∃ a b c, a ≠ b ∧ a ≠ c ∧ b ≠ c ∧ a < 16 ∧ b < 16 ∧ c < 16 ∧
        PostingListIndex3 16 a b c = some 559) :=
  ⟨(PostingListIndex3_image 16 (by decide)).1 7 3 5 (by decide) (by decide) (by decide)
     (by decide) (by decide) (by decide),
   (PostingListIndex3_image 16 (by decide)).2 559 (by decide)⟩

end PivotNeighbHorderHashPivInvIndex
